import Mathlib

/-!
# Verification of the snipsync marker-driven extraction and splice engine

This file gives a shallow embedding of the core of `src/Sync.ts` (and the
marker constants of the companion `common` module): the snippet data model,
the id-extraction regular expression, the per-file snippet extractor, the
snippet formatter, the splice pass over a target file, and the clear pass.
Stateful JavaScript loops are embedded as explicit state-passing recursion;
exceptions (`TypeError` from indexing a `null` regex match or an `undefined`
array slot) are embedded as `Except` errors; the splice loop, which iterates
an index over an array it mutates (and for adversarial snippet content need
not terminate), takes an explicit fuel parameter, with `SyncErr.fuelOut`
marking fuel exhaustion.
-/

namespace Snipsync

/-! ## Marker grammar: constants from `common` -/

/-- Capture-start marker prefix (`readstart` in `common`). -/
def readstart : String := "@@@START"

/-- Capture-end marker prefix (`readend` in `common`). -/
def readend : String := "@@@END"

/-- Insertion-start marker prefix (`writestart` in `common`). -/
def writestart : String := "<!--START"

/-- Insertion-end marker prefix (`writeend` in `common`). -/
def writeend : String := "<!--END"

/-- JavaScript `line.includes(pat)`: substring containment. -/
def includesSub (line pat : String) : Bool :=
  line.toList.tails.any (fun t => pat.toList.isPrefixOf t)

/-- JavaScript `\w`: ASCII word characters. -/
def isWordChar (c : Char) : Bool := c.isAlphanum || c == '_'

/-- JavaScript `\s`: whitespace characters (ASCII part plus the common
Unicode spaces recognised by ECMAScript). -/
def isSpaceCharJS (c : Char) : Bool :=
  c == ' ' || c == '\t' || c == '\n' || c == '\r' ||
  c.toNat == 0x0b || c.toNat == 0x0c || c.toNat == 0xa0 || c.toNat == 0x1680 ||
  (0x2000 ≤ c.toNat && c.toNat ≤ 0x200a) ||
  c.toNat == 0x2028 || c.toNat == 0x2029 || c.toNat == 0x202f ||
  c.toNat == 0x205f || c.toNat == 0x3000 || c.toNat == 0xfeff

/-- JavaScript `s.trim()`: strip leading and trailing whitespace, written
structurally so that it evaluates by kernel reduction. -/
def jsTrim (s : String) : String :=
  String.mk (((s.toList.dropWhile isSpaceCharJS).reverse.dropWhile isSpaceCharJS).reverse)

/-- Length of the maximal `\w*` prefix. -/
def takeWordPrefix : List Char → Nat
  | [] => 0
  | c :: cs => if isWordChar c then takeWordPrefix cs + 1 else 0

/-- Greedy backtracking over the possible lengths of a `\w+` atom: try the
longest split first, then shorter ones, down to length 1. -/
def tryLens (k : List Char → Option (List Char)) (cs : List Char) : Nat → Option (List Char)
  | 0 => none
  | n + 1 =>
    match k (cs.drop (n + 1)) with
    | some r => some r
    | none => tryLens k cs n

/-- `\w+` with continuation `k` on the rest, greedy with backtracking. -/
def wplus (k : List Char → Option (List Char)) (cs : List Char) : Option (List Char) :=
  tryLens k cs (takeWordPrefix cs)

/-- One `\w+-\w+` group with continuation `k`. -/
def matchGroup (k : List Char → Option (List Char)) (cs : List Char) : Option (List Char) :=
  wplus (fun rest =>
    match rest with
    | '-' :: rest2 => wplus k rest2
    | _ => none) cs

/-- `(\w+-\w+)+` with continuation `k`: greedy, preferring more iterations.
Each iteration consumes at least three characters, so fuel `cs.length + 1`
can never run out; fuel only makes the recursion structural. -/
def matchGroups : Nat → (List Char → Option (List Char)) → List Char → Option (List Char)
  | 0, _, _ => none
  | fuel + 1, k, cs =>
    matchGroup (fun rest =>
      match matchGroups fuel k rest with
      | some r => some r
      | none => k rest) cs

/-- The body `(\w+-\w+)+(\w+)` at the current position; returns the rest of
the input after the match. -/
def matchPat (cs : List Char) : Option (List Char) :=
  matchGroups (cs.length + 1) (fun rest => wplus some rest) cs

/-- The lookbehind `(?<=\bSNIPSTART\s)` applied to the reversed prefix of the
input before the current position: one `\s` character, preceded by the
literal `SNIPSTART`, preceded by a word boundary. -/
def lookbehindOk : List Char → Bool
  | ws :: 'T' :: 'R' :: 'A' :: 'T' :: 'S' :: 'P' :: 'I' :: 'N' :: 'S' :: rest =>
    isSpaceCharJS ws &&
      (match rest with
       | [] => true
       | c :: _ => !isWordChar c)
  | _ => false

/-- Scan for the leftmost position where the lookbehind holds and the body
matches; return the matched substring.  `before` is the reversed prefix. -/
def findFirstMatch (before : List Char) : List Char → Option String
  | [] => none
  | c :: cs =>
    if lookbehindOk before then
      match matchPat (c :: cs) with
      | some rest =>
        some (String.mk ((c :: cs).take ((c :: cs).length - rest.length)))
      | none => findFirstMatch (c :: before) cs
    else findFirstMatch (c :: before) cs

/-- `extractID` from `Sync.ts`.  `some s` is the first regex match on the
line; `none` models `match` returning `null` (so that `[0]` throws). -/
def extractID (line : String) : Option String := findFirstMatch [] line.toList

/-! ## Data model -/

/-- The `FilePath` entity of `Sync.ts`. -/
structure FilePath where
  name : String
  directory : String
  saved : Bool
deriving DecidableEq

/-- The `Snippet` class of `Sync.ts`.  `ref` is `Option` because the origin
`ref` is optional (`undefined` in JavaScript). -/
structure Snippet where
  id : String
  ext : String
  owner : String
  repo : String
  ref : Option String
  filePath : FilePath
  lines : List String
deriving DecidableEq

/-- The `File` class of `Sync.ts`. -/
structure File where
  filename : String
  lines : List String
deriving DecidableEq

/-- Failures of the engine.  `nullMatch` is the `TypeError` thrown by
`extractID(line)[0]` when `match` returns `null`; `undefinedSnip` is the
`TypeError` thrown by `fileSnips[fileSnipsCount].lines.push` when the index
is one past the end of the array; `fuelOut` marks exhaustion of the explicit
fuel of the splice loop (the JavaScript loop can run forever for adversarial
snippet content). -/
inductive SyncErr where
  | nullMatch
  | undefinedSnip
  | fuelOut
deriving DecidableEq

instance {ε α : Type} [DecidableEq ε] [DecidableEq α] : DecidableEq (Except ε α) := fun x y =>
  match x, y with
  | Except.ok a, Except.ok b =>
    if h : a = b then Decidable.isTrue (by rw [h])
    else Decidable.isFalse (fun hh => h (Except.ok.inj hh))
  | Except.error a, Except.error b =>
    if h : a = b then Decidable.isTrue (by rw [h])
    else Decidable.isFalse (fun hh => h (Except.error.inj hh))
  | Except.ok _, Except.error _ => Decidable.isFalse (fun hh => Except.noConfusion hh)
  | Except.error _, Except.ok _ => Decidable.isFalse (fun hh => Except.noConfusion hh)

/-! ## Snippet extraction (`extractSnippets`, per-file loop) -/

/-- The per-file context `extractSnippets` closes over. -/
structure ExtractCtx where
  ext : String
  owner : String
  repo : String
  ref : Option String
  item : FilePath
deriving DecidableEq

/-- State of the line scanner in `extractSnippets`. -/
structure ExtractState where
  capture : Bool
  fileSnipsCount : Nat
  fileSnips : List Snippet
deriving DecidableEq

/-- `snippet.lines.push(line)`. -/
def Snippet.pushLine (s : Snippet) (line : String) : Snippet :=
  { s with lines := s.lines ++ [line] }

/-- Appending a block of lines to a snippet body (iterated `pushLine`). -/
def Snippet.pushLines (s : Snippet) (seg : List String) : Snippet :=
  { s with lines := s.lines ++ seg }

/-- `new Snippet(extractID(line).trim(), ext, owner, repo, ref, item)`. -/
def freshSnippet (ctx : ExtractCtx) (m : String) : Snippet :=
  ⟨jsTrim m, ctx.ext, ctx.owner, ctx.repo, ctx.ref, ctx.item, []⟩

/-- The per-line callback of `extractSnippets`, in source order: the
capture-end check (clears the flag and increments the counter), then the
capture append (`fileSnips[fileSnipsCount].lines.push(line)`, a `TypeError`
when the slot is `undefined`), then the capture-start check (extracts the id,
a `TypeError` when there is no match, and pushes a fresh snippet). -/
def extractLine (ctx : ExtractCtx) (st : ExtractState) (line : String) :
    Except SyncErr ExtractState :=
  let st1 :=
    if includesSub line readend then
      { st with capture := false, fileSnipsCount := st.fileSnipsCount + 1 }
    else st
  let st2r : Except SyncErr ExtractState :=
    if st1.capture then
      if h : st1.fileSnipsCount < st1.fileSnips.length then
        Except.ok { st1 with
          fileSnips := st1.fileSnips.set st1.fileSnipsCount
            ((st1.fileSnips.get ⟨st1.fileSnipsCount, h⟩).pushLine line) }
      else Except.error SyncErr.undefinedSnip
    else Except.ok st1
  match st2r with
  | Except.error e => Except.error e
  | Except.ok st2 =>
    if includesSub line readstart then
      match extractID line with
      | some m =>
        Except.ok { st2 with
          capture := true
          fileSnips := st2.fileSnips ++ [freshSnippet ctx m] }
      | none => Except.error SyncErr.nullMatch
    else Except.ok st2

/-- The line loop of `extractSnippets` over one file. -/
def extractLines (ctx : ExtractCtx) (st : ExtractState) :
    List String → Except SyncErr ExtractState
  | [] => Except.ok st
  | l :: ls =>
    match extractLine ctx st l with
    | Except.error e => Except.error e
    | Except.ok st' => extractLines ctx st' ls

/-- Snippets harvested from one source file (the `fileSnips` array pushed
onto `snippets`). -/
def extractFileSnips (ctx : ExtractCtx) (lines : List String) :
    Except SyncErr (List Snippet) :=
  match extractLines ctx ⟨false, 0, []⟩ lines with
  | Except.error e => Except.error e
  | Except.ok st => Except.ok st.fileSnips

/-! ## Splice pass (`getSplicedFile` / `spliceFile`) -/

/-- The insertion-start branch of the loop body of `getSplicedFile`: on a
line containing `writestart`, extract the id (a `TypeError` when there is no
match) and, when it equals the snippet id, record `spliceStart` (the 1-based
position, i.e. `idx + 1`) and set the flag. -/
def spliceStartCheck (snip : Snippet) (line : String) (look : Bool) (ss idx : Nat) :
    Except SyncErr (Bool × Nat) :=
  if includesSub line writestart then
    match extractID line with
    | none => Except.error SyncErr.nullMatch
    | some i => if i = snip.id then Except.ok (true, idx + 1) else Except.ok (look, ss)
  else Except.ok (look, ss)

/-- The loop of `getSplicedFile`.  The JavaScript `for..of` iterates indices
against the current (mutated) array, reading `file.lines[idx]` after each
in-place `splice`; `spliceFile(start, end)` removes `end - start - 1` lines
at position `start` (a negative count is clamped to zero, which the `Nat`
subtraction `idx - ss` reproduces) and inserts the snippet lines.  Fuel
decreases once per iteration. -/
def spliceLoop (snip : Snippet) :
    Nat → List String → Nat → Bool → Nat → Except SyncErr (List String)
  | 0, lines, idx, _, _ =>
    if idx < lines.length then Except.error SyncErr.fuelOut else Except.ok lines
  | fuel + 1, lines, idx, look, ss =>
    if h : idx < lines.length then
      Except.bind (spliceStartCheck snip (lines.get ⟨idx, h⟩) look ss idx) (fun p =>
        if includesSub (lines.get ⟨idx, h⟩) writeend && p.1 then
          spliceLoop snip fuel
            (lines.take p.2 ++ snip.lines ++ lines.drop (p.2 + (idx - p.2)))
            (idx + 1) false p.2
        else spliceLoop snip fuel lines (idx + 1) p.1 p.2)
    else Except.ok lines

/-- `getSplicedFile snippet file` (with explicit fuel). -/
def getSplicedFileF (fuel : Nat) (snip : Snippet) (file : File) : Except SyncErr File :=
  match spliceLoop snip fuel file.lines 0 false 0 with
  | Except.error e => Except.error e
  | Except.ok ls => Except.ok { file with lines := ls }

/-! ## Clear pass (`getClearedFile`) -/

/-- The loop of `getClearedFile`: an `omit` flag, cleared on a line containing
`writeend` (before the keep decision), set on a line containing `writestart`
(after the keep decision). -/
def clearLoop : Bool → List String → List String
  | _, [] => []
  | om, line :: ls =>
    let om1 := if includesSub line writeend then false else om
    let om2 := if includesSub line writestart then true else om1
    if om1 then clearLoop om2 ls else line :: clearLoop om2 ls

/-- `getClearedFile file`. -/
def getClearedFile (file : File) : File :=
  { file with lines := clearLoop false file.lines }

/-! ## List helpers -/

/-- The element at position `A.length` of `A ++ b :: B` is `b`. -/
theorem get_len_append {α : Type} (A : List α) (b : α) (B : List α)
    (h : A.length < (A ++ b :: B).length) : (A ++ b :: B).get ⟨A.length, h⟩ = b := by
  induction A with
  | nil => rfl
  | cons a A ih => exact ih (by simpa using h)

/-- Setting position `A.length` of `A ++ b :: B` replaces `b`. -/
theorem set_len_append {α : Type} (A : List α) (b c : α) (B : List α) :
    (A ++ b :: B).set A.length c = A ++ c :: B := by
  induction A with
  | nil => rfl
  | cons a A ih => simp [ih]

/-- Taking `A.length` elements of `A ++ B` yields `A`. -/
theorem take_len_append {α : Type} (A B : List α) : (A ++ B).take A.length = A := by
  induction A with
  | nil => rfl
  | cons a A ih => simp [ih]

/-- Dropping `A.length` elements of `A ++ B` yields `B`. -/
theorem drop_len_append {α : Type} (A B : List α) : (A ++ B).drop A.length = B := by
  induction A with
  | nil => rfl
  | cons a A ih => simp [ih]

/-- Membership is preserved from a `drop` to the whole list. -/
theorem mem_of_mem_dropN {α : Type} {x : α} : ∀ (n : Nat) (l : List α), x ∈ l.drop n → x ∈ l
  | 0, _, h => h
  | _ + 1, [], h => by simp at h
  | n + 1, a :: l, h => by
    simp only [List.drop_succ_cons] at h
    exact List.mem_cons_of_mem a (mem_of_mem_dropN n l h)

/-! ## Splice loop lemmas -/

theorem exbind_ok {ε α β : Type} (a : α) (f : α → Except ε β) :
    Except.bind (Except.ok a) f = f a := rfl

theorem spliceStartCheck_nostart {snip : Snippet} {line : String} (look : Bool) (ss idx : Nat)
    (h : includesSub line writestart = false) :
    spliceStartCheck snip line look ss idx = Except.ok (look, ss) := by
  simp [spliceStartCheck, h]

theorem spliceStartCheck_hit {snip : Snippet} {line : String} (look : Bool) (ss idx : Nat)
    (h : includesSub line writestart = true) (hid : extractID line = some snip.id) :
    spliceStartCheck snip line look ss idx = Except.ok (true, idx + 1) := by
  simp [spliceStartCheck, h, hid]

theorem spliceStartCheck_bad {snip : Snippet} {line : String} (look : Bool) (ss idx : Nat)
    (h : includesSub line writestart = true) (hid : extractID line = none) :
    spliceStartCheck snip line look ss idx = Except.error SyncErr.nullMatch := by
  simp [spliceStartCheck, h, hid]

/-- One-step unfolding of `spliceLoop` at positive fuel. -/
theorem spliceLoop_succ (snip : Snippet) (fuel : Nat) (lines : List String)
    (idx : Nat) (look : Bool) (ss : Nat) :
    spliceLoop snip (fuel + 1) lines idx look ss =
      if h : idx < lines.length then
        Except.bind (spliceStartCheck snip (lines.get ⟨idx, h⟩) look ss idx) (fun p =>
          if includesSub (lines.get ⟨idx, h⟩) writeend && p.1 then
            spliceLoop snip fuel
              (lines.take p.2 ++ snip.lines ++ lines.drop (p.2 + (idx - p.2)))
              (idx + 1) false p.2
          else spliceLoop snip fuel lines (idx + 1) p.1 p.2)
      else Except.ok lines := rfl

/-- Once the index is past the end of the array, the loop stops and returns
the lines unchanged, whatever the fuel. -/
theorem spliceLoop_exit (snip : Snippet) (fuel : Nat) (lines : List String)
    (idx : Nat) (look : Bool) (ss : Nat) (h : lines.length ≤ idx) :
    spliceLoop snip fuel lines idx look ss = Except.ok lines := by
  cases fuel with
  | zero => simp [spliceLoop, Nat.not_lt.mpr h]
  | succ fuel => rw [spliceLoop_succ, dif_neg (Nat.not_lt.mpr h)]

/-- A boolean `if` whose condition is false. -/
theorem ite_bool_false {α : Type} (c : Bool) (a b2 : α) (h : c = false) :
    (if c = true then a else b2) = b2 := by simp [h]

/-- One step of `spliceLoop` at the head of the suffix `x :: rest`. -/
theorem spliceLoop_cons_step (snip : Snippet) (fuel : Nat) (front : List String)
    (x : String) (rest : List String) (look : Bool) (ss : Nat) :
    spliceLoop snip (fuel + 1) (front ++ x :: rest) front.length look ss =
      Except.bind (spliceStartCheck snip x look ss front.length) (fun p =>
        if includesSub x writeend && p.1 then
          spliceLoop snip fuel
            ((front ++ x :: rest).take p.2 ++ snip.lines ++
              (front ++ x :: rest).drop (p.2 + (front.length - p.2)))
            (front.length + 1) false p.2
        else spliceLoop snip fuel (front ++ x :: rest) (front.length + 1) p.1 p.2) := by
  have hlt : front.length < (front ++ x :: rest).length := by simp
  rw [spliceLoop_succ, dif_pos hlt, get_len_append front x rest hlt]

/-- Scanning a block of lines free of insertion-start markers while the flag
is down advances the index and changes nothing else. -/
theorem spliceLoop_nostart_phase (snip : Snippet) (seg : List String)
    (hseg : ∀ l ∈ seg, includesSub l writestart = false) :
    ∀ (front rest : List String) (fuel ss : Nat),
      spliceLoop snip (seg.length + fuel) (front ++ (seg ++ rest)) front.length false ss =
        spliceLoop snip fuel (front ++ (seg ++ rest)) (front.length + seg.length) false ss := by
  induction seg with
  | nil => intro front rest fuel ss; simp
  | cons x seg ih =>
    intro front rest fuel ss
    have hx : includesSub x writestart = false := hseg x (by simp)
    have hseg2 : ∀ l ∈ seg, includesSub l writestart = false :=
      fun l hl => hseg l (by simp [hl])
    rw [show (x :: seg).length + fuel = (seg.length + fuel) + 1 by simp; omega]
    rw [show front ++ (x :: seg ++ rest) = front ++ x :: (seg ++ rest) by simp]
    rw [spliceLoop_cons_step, spliceStartCheck_nostart false ss front.length hx, exbind_ok]
    rw [ite_bool_false _ _ _ (by simp)]
    have h2 := ih hseg2 (front ++ [x]) rest fuel ss
    simp only [List.append_assoc, List.cons_append, List.nil_append, List.length_append,
      List.length_cons, List.length_nil, Nat.zero_add] at h2 ⊢
    rw [show front.length + (seg.length + 1) = front.length + 1 + seg.length by omega]
    exact h2

/-- Scanning a block of lines free of both insertion markers while the flag
is up advances the index and changes nothing else. -/
theorem spliceLoop_inert_phase (snip : Snippet) (seg : List String)
    (hseg : ∀ l ∈ seg, includesSub l writestart = false ∧ includesSub l writeend = false) :
    ∀ (front rest : List String) (fuel ss : Nat),
      spliceLoop snip (seg.length + fuel) (front ++ (seg ++ rest)) front.length true ss =
        spliceLoop snip fuel (front ++ (seg ++ rest)) (front.length + seg.length) true ss := by
  induction seg with
  | nil => intro front rest fuel ss; simp
  | cons x seg ih =>
    intro front rest fuel ss
    have hx : includesSub x writestart = false := (hseg x (by simp)).1
    have hxe : includesSub x writeend = false := (hseg x (by simp)).2
    have hseg2 : ∀ l ∈ seg, includesSub l writestart = false ∧ includesSub l writeend = false :=
      fun l hl => hseg l (by simp [hl])
    rw [show (x :: seg).length + fuel = (seg.length + fuel) + 1 by simp; omega]
    rw [show front ++ (x :: seg ++ rest) = front ++ x :: (seg ++ rest) by simp]
    rw [spliceLoop_cons_step, spliceStartCheck_nostart true ss front.length hx, exbind_ok]
    rw [ite_bool_false _ _ _ (by simp [hxe])]
    have h2 := ih hseg2 (front ++ [x]) rest fuel ss
    simp only [List.append_assoc, List.cons_append, List.nil_append, List.length_append,
      List.length_cons, List.length_nil, Nat.zero_add] at h2 ⊢
    rw [show front.length + (seg.length + 1) = front.length + 1 + seg.length by omega]
    exact h2

/-- When every line at or after the index is free of insertion-start markers
and the flag is down, the loop finishes and leaves the file unchanged. -/
theorem spliceLoop_tail_nostart (snip : Snippet) :
    ∀ (fuel : Nat) (lines : List String) (idx ss : Nat),
      (∀ l ∈ lines.drop idx, includesSub l writestart = false) →
      lines.length - idx ≤ fuel →
      spliceLoop snip fuel lines idx false ss = Except.ok lines := by
  intro fuel
  induction fuel with
  | zero =>
    intro lines idx ss _ hfuel
    exact spliceLoop_exit snip 0 lines idx false ss (by omega)
  | succ fuel ih =>
    intro lines idx ss hseg hfuel
    by_cases hlt : idx < lines.length
    · rw [spliceLoop_succ, dif_pos hlt]
      have hmem : lines.get ⟨idx, hlt⟩ ∈ lines.drop idx := by
        rw [List.drop_eq_getElem_cons hlt, List.get_eq_getElem]
        exact List.mem_cons_self _ _
      rw [spliceStartCheck_nostart false ss idx (hseg _ hmem), exbind_ok]
      rw [ite_bool_false _ _ _ (by simp)]
      apply ih lines (idx + 1) ss
      · intro l hl
        exact hseg l (mem_of_mem_dropN 1 (lines.drop idx) (by simpa [List.drop_drop] using hl))
      · omega
    · exact spliceLoop_exit snip _ lines idx false ss (by omega)

/-- More fuel never changes a result other than fuel exhaustion. -/
theorem spliceLoop_mono (snip : Snippet) :
    ∀ (fuel fuel2 : Nat) (lines : List String) (idx : Nat) (look : Bool) (ss : Nat)
      (r : Except SyncErr (List String)),
      spliceLoop snip fuel lines idx look ss = r →
      r ≠ Except.error SyncErr.fuelOut →
      fuel ≤ fuel2 →
      spliceLoop snip fuel2 lines idx look ss = r := by
  intro fuel
  induction fuel with
  | zero =>
    intro fuel2 lines idx look ss r hr hne _
    by_cases hlt : idx < lines.length
    · exfalso
      apply hne
      rw [← hr]
      simp [spliceLoop, hlt]
    · rw [spliceLoop_exit snip _ lines idx look ss (by omega)]
      rw [← hr, spliceLoop_exit snip _ lines idx look ss (by omega)]
  | succ fuel ih =>
    intro fuel2 lines idx look ss r hr hne hle
    by_cases hlt : idx < lines.length
    · obtain ⟨fuel3, rfl⟩ : ∃ k, fuel2 = k + 1 := ⟨fuel2 - 1, by omega⟩
      rw [spliceLoop_succ, dif_pos hlt]
      rw [spliceLoop_succ, dif_pos hlt] at hr
      cases hcheck : spliceStartCheck snip (lines.get ⟨idx, hlt⟩) look ss idx with
      | error e => rw [hcheck] at hr; rw [← hr]; rfl
      | ok p =>
        rw [hcheck, exbind_ok] at hr
        rw [exbind_ok]
        by_cases hend : (includesSub (lines.get ⟨idx, hlt⟩) writeend && p.1) = true
        · simp only [hend, if_true] at hr ⊢
          exact ih fuel3 _ _ _ _ r hr hne (by omega)
        · rw [ite_bool_false _ _ _ (by revert hend; cases includesSub (lines.get ⟨idx, hlt⟩) writeend && p.1 <;> simp)] at hr ⊢
          exact ih fuel3 _ _ _ _ r hr hne (by omega)
    · rw [spliceLoop_exit snip _ lines idx look ss (by omega)]
      rw [← hr, spliceLoop_exit snip _ lines idx look ss (by omega)]

/-- `(A ++ B).drop (A.length + k) = B.drop k`. -/
theorem drop_len_append_plus {α : Type} (A B : List α) (k : Nat) :
    (A ++ B).drop (A.length + k) = B.drop k := by
  induction A with
  | nil => simp
  | cons a A ih => simpa [Nat.succ_add] using ih

/-- Core lemma: scanning a file consisting of a well-formed insertion region
for the snippet id, with marker-free surroundings, replaces exactly the
region interior with the snippet lines. -/
theorem spliceSingleRegion (snip : Snippet) (pre mid post : List String) (s e : String)
    (hpre : ∀ l ∈ pre, includesSub l writestart = false)
    (hmid : ∀ l ∈ mid, includesSub l writestart = false ∧ includesSub l writeend = false)
    (hsnip : ∀ l ∈ snip.lines, includesSub l writestart = false)
    (hpost : ∀ l ∈ post, includesSub l writestart = false)
    (hsS : includesSub s writestart = true) (hsE : includesSub s writeend = false)
    (hsid : extractID s = some snip.id)
    (heE : includesSub e writeend = true) (heS : includesSub e writestart = false) :
    ∀ fuel : Nat,
      pre.length + mid.length + 2 + snip.lines.length + 1 + post.length ≤ fuel →
      spliceLoop snip fuel (pre ++ s :: (mid ++ e :: post)) 0 false 0 =
        Except.ok (pre ++ s :: (snip.lines ++ e :: post)) := by
  intro fuel hfuel
  set NEW : List String := pre ++ s :: (snip.lines ++ e :: post) with hNEWdef
  have hNEWlen : NEW.length = pre.length + 1 + (snip.lines.length + 1 + post.length) := by
    rw [hNEWdef]
    simp only [List.length_append, List.length_cons, List.length_nil] <;> omega
  set t : Nat := NEW.length - (pre.length + mid.length + 2) with htdef
  -- run the loop with the exact fuel it needs
  have hexact :
      spliceLoop snip (pre.length + (1 + (mid.length + (1 + t))))
        (pre ++ s :: (mid ++ e :: post)) 0 false 0 = Except.ok NEW := by
    -- phase 1: the marker-free prefix
    have ph1 := spliceLoop_nostart_phase snip pre hpre []
      (s :: (mid ++ e :: post)) (1 + (mid.length + (1 + t))) 0
    simp only [List.nil_append, List.length_nil, Nat.zero_add] at ph1
    rw [ph1]
    -- step 2: the insertion-start line
    rw [show 1 + (mid.length + (1 + t)) = (mid.length + (1 + t)) + 1 by omega]
    rw [show pre ++ s :: (mid ++ e :: post) = pre ++ s :: ((mid ++ e :: post) : List String)
        from rfl]
    rw [spliceLoop_cons_step snip (mid.length + (1 + t)) pre s (mid ++ e :: post) false 0]
    rw [spliceStartCheck_hit false 0 pre.length hsS hsid, exbind_ok]
    rw [ite_bool_false _ _ _ (by simp [hsE])]
    -- phase 3: the marker-free interior, flag up
    have ph3 := spliceLoop_inert_phase snip mid hmid (pre ++ [s]) (e :: post)
      (1 + t) (pre.length + 1)
    simp only [List.append_assoc, List.cons_append, List.nil_append, List.length_append,
      List.length_cons, List.length_nil, Nat.zero_add] at ph3
    rw [show (pre ++ s :: (mid ++ e :: post)) = pre ++ s :: (mid ++ e :: post) from rfl]
    rw [show pre.length + 1 = pre.length + 1 from rfl]
    rw [ph3]
    -- step 4: the insertion-end line fires the splice
    rw [show 1 + t = t + 1 by omega]
    have hre4 : pre ++ s :: (mid ++ e :: post) = ((pre ++ [s]) ++ mid) ++ e :: post := by simp
    have hlen4 : pre.length + 1 + mid.length = ((pre ++ [s]) ++ mid).length := by
      simp only [List.length_append, List.length_cons, List.length_nil] <;> omega
    rw [hre4, hlen4,
      spliceLoop_cons_step snip t ((pre ++ [s]) ++ mid) e post true (pre.length + 1)]
    rw [spliceStartCheck_nostart true (pre.length + 1) ((pre ++ [s]) ++ mid).length heS,
      exbind_ok]
    simp only [heE, Bool.true_and, if_true]
    -- compute the spliced array
    have htake : (((pre ++ [s]) ++ mid) ++ e :: post).take (pre.length + 1) = pre ++ [s] := by
      rw [show ((pre ++ [s]) ++ mid) ++ e :: post = (pre ++ [s]) ++ (mid ++ e :: post) by simp]
      rw [show pre.length + 1 = (pre ++ [s]).length by simp]
      exact take_len_append _ _
    have hdrop :
        (((pre ++ [s]) ++ mid) ++ e :: post).drop
          (pre.length + 1 + (((pre ++ [s]) ++ mid).length - (pre.length + 1))) = e :: post := by
      rw [show pre.length + 1 + (((pre ++ [s]) ++ mid).length - (pre.length + 1)) =
          ((pre ++ [s]) ++ mid).length by simp only [List.length_append, List.length_cons, List.length_nil] <;> omega]
      exact drop_len_append _ _
    rw [htake, hdrop]
    -- phase 5: scan the rest of the new array; nothing else changes
    have hnew2 : (pre ++ [s]) ++ snip.lines ++ e :: post = NEW := by simp [hNEWdef]
    rw [hnew2]
    apply spliceLoop_tail_nostart
    · intro l hl
      have hsplit : NEW.drop (((pre ++ [s]) ++ mid).length + 1) =
          (snip.lines ++ e :: post).drop (mid.length + 1) := by
        rw [show ((pre ++ [s]) ++ mid).length + 1 = (pre ++ [s]).length + (mid.length + 1)
            by simp only [List.length_append, List.length_cons, List.length_nil] <;> omega]
        rw [show NEW = (pre ++ [s]) ++ (snip.lines ++ e :: post) by simp [hNEWdef]]
        exact drop_len_append_plus _ _ _
      rw [hsplit] at hl
      have hl2 : l ∈ snip.lines ++ e :: post := mem_of_mem_dropN _ _ hl
      rcases List.mem_append.mp hl2 with h | h
      · exact hsnip l h
      · rcases List.mem_cons.mp h with h | h
        · exact h ▸ heS
        · exact hpost l h
    · simp only [htdef, List.length_append, List.length_cons, List.length_nil] <;> omega
  -- pad out to the requested fuel
  refine spliceLoop_mono snip _ fuel _ _ _ _ _ hexact (by simp) ?_
  omega

/-! ## Clear loop lemmas -/

/-- With the omit flag down, lines free of insertion-start markers are kept
verbatim and the flag stays down. -/
theorem clearLoop_keep_phase (seg : List String)
    (hseg : ∀ l ∈ seg, includesSub l writestart = false) :
    ∀ rest : List String, clearLoop false (seg ++ rest) = seg ++ clearLoop false rest := by
  induction seg with
  | nil => intro rest; simp
  | cons x seg ih =>
    intro rest
    have hx : includesSub x writestart = false := hseg x (by simp)
    have hseg2 : ∀ l ∈ seg, includesSub l writestart = false :=
      fun l hl => hseg l (by simp [hl])
    simp only [List.cons_append, clearLoop, hx, if_false, ite_self, Bool.false_eq_true,
      List.append_eq]
    rw [ih hseg2 rest]

/-- Clearing a marker-free block with the flag down is the identity. -/
theorem clearLoop_keep_nil (seg : List String)
    (hseg : ∀ l ∈ seg, includesSub l writestart = false) :
    clearLoop false seg = seg := by
  have h := clearLoop_keep_phase seg hseg []
  simpa [clearLoop] using h

/-- With the omit flag up, lines free of insertion-end markers are dropped
and the flag stays up. -/
theorem clearLoop_drop_phase (seg : List String)
    (hseg : ∀ l ∈ seg, includesSub l writeend = false) :
    ∀ rest : List String, clearLoop true (seg ++ rest) = clearLoop true rest := by
  induction seg with
  | nil => intro rest; simp
  | cons x seg ih =>
    intro rest
    have hx : includesSub x writeend = false := hseg x (by simp)
    have hseg2 : ∀ l ∈ seg, includesSub l writeend = false :=
      fun l hl => hseg l (by simp [hl])
    simp only [List.cons_append, clearLoop, hx, if_false, ite_self, if_true,
      Bool.false_eq_true, List.append_eq]
    exact ih hseg2 rest

/-! ## Insertion regions of a target file -/

/-- A well-formed insertion region of a target file: a marker-free gap, an
insertion-start line, the interior, an insertion-end line. -/
structure InsRegion where
  pre : List String
  startLine : String
  body : List String
  endLine : String
deriving DecidableEq

/-- The lines of one insertion region. -/
def insRegionLines (r : InsRegion) : List String :=
  r.pre ++ r.startLine :: (r.body ++ [r.endLine])

/-- A target file as a list of insertion regions followed by a trailing
marker-free block. -/
def buildTarget (rs : List InsRegion) (post : List String) : List String :=
  (rs.map insRegionLines).flatten ++ post

/-- Well-formedness of one insertion region for the clear pass: the gap is
free of insertion-start markers, the start line contains the insertion-start
marker, the interior is free of insertion-end markers, and the end line
contains the insertion-end marker and no insertion-start marker. -/
def GoodInsRegion (r : InsRegion) : Prop :=
  (∀ l ∈ r.pre, includesSub l writestart = false) ∧
  includesSub r.startLine writestart = true ∧
  (∀ l ∈ r.body, includesSub l writeend = false) ∧
  includesSub r.endLine writeend = true ∧
  includesSub r.endLine writestart = false

instance : DecidablePred GoodInsRegion := fun r => by
  unfold GoodInsRegion
  infer_instance

/-- Clearing a well-formed target keeps all gaps and marker lines in order
and empties every region interior. -/
theorem clearLoop_buildTarget (rs : List InsRegion) (post : List String)
    (hrs : ∀ r ∈ rs, GoodInsRegion r)
    (hpost : ∀ l ∈ post, includesSub l writestart = false) :
    clearLoop false (buildTarget rs post) =
      buildTarget (rs.map fun r => { r with body := [] }) post := by
  induction rs with
  | nil =>
    simp only [buildTarget, List.map_nil, List.flatten_nil, List.nil_append]
    exact clearLoop_keep_nil post hpost
  | cons r rs ih =>
    obtain ⟨h1, h2, h3, h4, h5⟩ := hrs r (by simp)
    have hrs2 : ∀ x ∈ rs, GoodInsRegion x := fun x hx => hrs x (by simp [hx])
    have hr : buildTarget (r :: rs) post =
        r.pre ++ r.startLine :: (r.body ++ r.endLine :: buildTarget rs post) := by
      simp [buildTarget, insRegionLines]
    rw [hr, clearLoop_keep_phase r.pre h1]
    have hs : clearLoop false (r.startLine :: (r.body ++ r.endLine :: buildTarget rs post)) =
        r.startLine :: clearLoop true (r.body ++ r.endLine :: buildTarget rs post) := by
      simp only [clearLoop, h2, if_true, ite_self, Bool.false_eq_true, if_false]
    rw [hs, clearLoop_drop_phase r.body h3]
    have he : clearLoop true (r.endLine :: buildTarget rs post) =
        r.endLine :: clearLoop false (buildTarget rs post) := by
      simp only [clearLoop, h4, h5, if_true, if_false, Bool.false_eq_true]
    rw [he, ih hrs2]
    simp [buildTarget, insRegionLines]

/-! ## Extraction lemmas -/

/-- A line with neither capture marker is ignored when not capturing. -/
theorem extractLine_inert (ctx : ExtractCtx) (c : Nat) (snips : List Snippet) (line : String)
    (h1 : includesSub line readend = false) (h2 : includesSub line readstart = false) :
    extractLine ctx ⟨false, c, snips⟩ line = Except.ok ⟨false, c, snips⟩ := by
  simp [extractLine, h1, h2]

/-- The element at position `A.length` of `A ++ b :: B` is `b` (bracket
notation form). -/
theorem getElem_len_append {α : Type} (A : List α) (b : α) (B : List α)
    (h : A.length < (A ++ b :: B).length) : (A ++ b :: B)[A.length] = b := by
  induction A with
  | nil => rfl
  | cons a A ih => simpa using ih (by simpa using h)

/-- While capturing with the counter pointing at the snippet `cur`, a line
with neither capture marker is appended to `cur`'s body. -/
theorem extractLine_body (ctx : ExtractCtx) (A : List Snippet) (cur : Snippet)
    (B : List Snippet) (line : String)
    (h1 : includesSub line readend = false) (h2 : includesSub line readstart = false) :
    extractLine ctx ⟨true, A.length, A ++ cur :: B⟩ line =
      Except.ok ⟨true, A.length, A ++ cur.pushLine line :: B⟩ := by
  have hlt : A.length < (A ++ cur :: B).length := by simp
  simp [extractLine, h1, h2, hlt, getElem_len_append, set_len_append]

/-- A capture-start line with an extractable id pushes a fresh snippet and
starts capturing (here from a non-capturing state). -/
theorem extractLine_start (ctx : ExtractCtx) (c : Nat) (snips : List Snippet) (line : String)
    (m : String) (h1 : includesSub line readend = false)
    (h2 : includesSub line readstart = true) (hid : extractID line = some m) :
    extractLine ctx ⟨false, c, snips⟩ line =
      Except.ok ⟨true, c, snips ++ [freshSnippet ctx m]⟩ := by
  simp [extractLine, h1, h2, hid]

/-- A capture-start line with no extractable id aborts the file (the
`TypeError` from indexing a `null` match), from a non-capturing state. -/
theorem extractLine_start_nomatch (ctx : ExtractCtx) (c : Nat) (snips : List Snippet)
    (line : String) (h1 : includesSub line readend = false)
    (h2 : includesSub line readstart = true) (hid : extractID line = none) :
    extractLine ctx ⟨false, c, snips⟩ line = Except.error SyncErr.nullMatch := by
  simp [extractLine, h1, h2, hid]

/-- A capture-end line (without a capture-start marker) stops capturing and
bumps the counter, from any state. -/
theorem extractLine_end (ctx : ExtractCtx) (cap : Bool) (c : Nat) (snips : List Snippet)
    (line : String) (h1 : includesSub line readend = true)
    (h2 : includesSub line readstart = false) :
    extractLine ctx ⟨cap, c, snips⟩ line = Except.ok ⟨false, c + 1, snips⟩ := by
  simp [extractLine, h1, h2]

/-- A capture-start line encountered while already capturing: the line itself
is first appended to the snippet the counter points at, then a fresh snippet
is pushed; the counter does not move. -/
theorem extractLine_start_while_capturing (ctx : ExtractCtx) (A : List Snippet)
    (cur : Snippet) (B : List Snippet) (line : String) (m : String)
    (h1 : includesSub line readend = false) (h2 : includesSub line readstart = true)
    (hid : extractID line = some m) :
    extractLine ctx ⟨true, A.length, A ++ cur :: B⟩ line =
      Except.ok ⟨true, A.length, (A ++ cur.pushLine line :: B) ++ [freshSnippet ctx m]⟩ := by
  have hlt : A.length < (A ++ cur :: B).length := by simp
  simp [extractLine, h1, h2, hid, hlt, getElem_len_append, set_len_append]

/-- Prepending one processed line to the loop. -/
theorem extractLines_cons (ctx : ExtractCtx) (st : ExtractState) (l : String)
    (ls : List String) :
    extractLines ctx st (l :: ls) =
      match extractLine ctx st l with
      | Except.error e => Except.error e
      | Except.ok st2 => extractLines ctx st2 ls := rfl

/-- One successful step of the loop. -/
theorem extractLines_step_ok (ctx : ExtractCtx) (st : ExtractState) (l : String)
    (ls : List String) (st2 : ExtractState) (h : extractLine ctx st l = Except.ok st2) :
    extractLines ctx st (l :: ls) = extractLines ctx st2 ls := by
  rw [extractLines_cons, h]

/-- One failing step of the loop aborts the file. -/
theorem extractLines_step_err (ctx : ExtractCtx) (st : ExtractState) (l : String)
    (ls : List String) (e : SyncErr) (h : extractLine ctx st l = Except.error e) :
    extractLines ctx st (l :: ls) = Except.error e := by
  rw [extractLines_cons, h]

/-- Scanning a marker-free block while not capturing changes nothing. -/
theorem extractLines_inert_phase (ctx : ExtractCtx) (seg : List String)
    (hseg : ∀ l ∈ seg, includesSub l readstart = false ∧ includesSub l readend = false) :
    ∀ (rest : List String) (c : Nat) (snips : List Snippet),
      extractLines ctx ⟨false, c, snips⟩ (seg ++ rest) =
        extractLines ctx ⟨false, c, snips⟩ rest := by
  induction seg with
  | nil => intro rest c snips; simp
  | cons x seg ih =>
    intro rest c snips
    have hx := hseg x (by simp)
    have hseg2 : ∀ l ∈ seg, includesSub l readstart = false ∧ includesSub l readend = false :=
      fun l hl => hseg l (by simp [hl])
    rw [List.cons_append,
      extractLines_step_ok ctx _ x _ _ (extractLine_inert ctx c snips x hx.2 hx.1)]
    exact ih hseg2 rest c snips

/-- Scanning a marker-free block while capturing appends it verbatim to the
body of the snippet the counter points at. -/
theorem extractLines_body_phase (ctx : ExtractCtx) (seg : List String)
    (hseg : ∀ l ∈ seg, includesSub l readstart = false ∧ includesSub l readend = false) :
    ∀ (rest : List String) (A : List Snippet) (cur : Snippet) (B : List Snippet),
      extractLines ctx ⟨true, A.length, A ++ cur :: B⟩ (seg ++ rest) =
        extractLines ctx ⟨true, A.length, A ++ cur.pushLines seg :: B⟩ rest := by
  induction seg with
  | nil => intro rest A cur B; simp [Snippet.pushLines]
  | cons x seg ih =>
    intro rest A cur B
    have hx := hseg x (by simp)
    have hseg2 : ∀ l ∈ seg, includesSub l readstart = false ∧ includesSub l readend = false :=
      fun l hl => hseg l (by simp [hl])
    rw [List.cons_append,
      extractLines_step_ok ctx _ x _ _ (extractLine_body ctx A cur B x hx.2 hx.1)]
    rw [ih hseg2 rest A (cur.pushLine x) B]
    have hpp : (cur.pushLine x).pushLines seg = cur.pushLines (x :: seg) := by
      simp [Snippet.pushLine, Snippet.pushLines]
    rw [hpp]

/-! ## Capture regions of a source file -/

/-- A flat capture region of a source file: a marker-free gap, a
capture-start line carrying the id `id`, the interior, a capture-end line. -/
structure CaptureRegion where
  pre : List String
  startLine : String
  id : String
  body : List String
  endLine : String
deriving DecidableEq

/-- The lines of one capture region. -/
def captureRegionLines (r : CaptureRegion) : List String :=
  r.pre ++ r.startLine :: (r.body ++ [r.endLine])

/-- A source file as a list of flat capture regions followed by a trailing
marker-free block. -/
def buildCaptureFile (rs : List CaptureRegion) (post : List String) : List String :=
  (rs.map captureRegionLines).flatten ++ post

/-- Well-formedness of one capture region: the gap and the interior are free
of both capture markers, the start line contains the capture-start marker
(and no capture-end marker) and its id is extractable, and the end line
contains the capture-end marker and no capture-start marker. -/
def GoodCaptureRegion (r : CaptureRegion) : Prop :=
  (∀ l ∈ r.pre, includesSub l readstart = false ∧ includesSub l readend = false) ∧
  includesSub r.startLine readstart = true ∧
  includesSub r.startLine readend = false ∧
  extractID r.startLine = some r.id ∧
  (∀ l ∈ r.body, includesSub l readstart = false ∧ includesSub l readend = false) ∧
  includesSub r.endLine readend = true ∧
  includesSub r.endLine readstart = false

instance : DecidablePred GoodCaptureRegion := fun r => by
  unfold GoodCaptureRegion
  infer_instance

/-- The snippet harvested from one well-formed capture region. -/
def regionSnippet (ctx : ExtractCtx) (r : CaptureRegion) : Snippet :=
  ⟨jsTrim r.id, ctx.ext, ctx.owner, ctx.repo, ctx.ref, ctx.item, r.body⟩

/-- Scanning a well-formed region file harvests one snippet per region, in
order, with exactly the interior lines as body. -/
theorem extractLines_buildCapture (ctx : ExtractCtx) (rs : List CaptureRegion)
    (post : List String)
    (hrs : ∀ r ∈ rs, GoodCaptureRegion r)
    (hpost : ∀ l ∈ post, includesSub l readstart = false ∧ includesSub l readend = false) :
    ∀ snips : List Snippet,
      extractLines ctx ⟨false, snips.length, snips⟩ (buildCaptureFile rs post) =
        Except.ok ⟨false, snips.length + rs.length, snips ++ rs.map (regionSnippet ctx)⟩ := by
  induction rs with
  | nil =>
    intro snips
    have h0 : buildCaptureFile [] post = post ++ [] := by
      simp [buildCaptureFile]
    rw [h0, extractLines_inert_phase ctx post hpost [] snips.length snips]
    simp [extractLines]
  | cons r rs ih =>
    intro snips
    obtain ⟨h1, h2, h3, h4, h5, h6, h7⟩ := hrs r (by simp)
    have hrs2 : ∀ x ∈ rs, GoodCaptureRegion x := fun x hx => hrs x (by simp [hx])
    have hr : buildCaptureFile (r :: rs) post =
        r.pre ++ r.startLine :: (r.body ++ r.endLine :: buildCaptureFile rs post) := by
      simp [buildCaptureFile, captureRegionLines]
    rw [hr, extractLines_inert_phase ctx r.pre h1]
    rw [extractLines_step_ok ctx _ _ _ _
      (extractLine_start ctx snips.length snips r.startLine r.id h3 h2 h4)]
    have hb := extractLines_body_phase ctx r.body h5
      (r.endLine :: buildCaptureFile rs post) snips (freshSnippet ctx r.id) []
    rw [show snips ++ [freshSnippet ctx r.id] = snips ++ freshSnippet ctx r.id :: [] from rfl,
      hb]
    rw [extractLines_step_ok ctx _ _ _ _
      (extractLine_end ctx true snips.length
        (snips ++ (freshSnippet ctx r.id).pushLines r.body :: []) r.endLine h6 h7)]
    have hfst : (freshSnippet ctx r.id).pushLines r.body = regionSnippet ctx r := by
      simp [freshSnippet, Snippet.pushLines, regionSnippet]
    rw [hfst]
    have hlen : snips.length + 1 = (snips ++ [regionSnippet ctx r]).length := by simp
    rw [show snips ++ regionSnippet ctx r :: [] = snips ++ [regionSnippet ctx r] from rfl,
      hlen, ih hrs2 (snips ++ [regionSnippet ctx r])]
    simp [List.length_append]
    omega

/-- `Except.bind` on an error. -/
theorem exbind_err {ε α β : Type} (e : ε) (f : α → Except ε β) :
    Except.bind (Except.error e : Except ε α) f = Except.error e := rfl

/-! ## Wrappers and error propagation -/

/-- `getSplicedFile` on a successful loop run. -/
theorem getSplicedFileF_ok (fuel : Nat) (snip : Snippet) (file : File) (ls : List String)
    (h : spliceLoop snip fuel file.lines 0 false 0 = Except.ok ls) :
    getSplicedFileF fuel snip file = Except.ok ⟨file.filename, ls⟩ := by
  simp [getSplicedFileF, h]

/-- `getSplicedFile` on a failing loop run. -/
theorem getSplicedFileF_err (fuel : Nat) (snip : Snippet) (file : File) (e : SyncErr)
    (h : spliceLoop snip fuel file.lines 0 false 0 = Except.error e) :
    getSplicedFileF fuel snip file = Except.error e := by
  simp [getSplicedFileF, h]

/-- `extractSnippets` per-file wrapper on a successful scan. -/
theorem extractFileSnips_ok (ctx : ExtractCtx) (lines : List String) (st : ExtractState)
    (h : extractLines ctx ⟨false, 0, []⟩ lines = Except.ok st) :
    extractFileSnips ctx lines = Except.ok st.fileSnips := by
  simp [extractFileSnips, h]

/-- `extractSnippets` per-file wrapper on a failing scan. -/
theorem extractFileSnips_err (ctx : ExtractCtx) (lines : List String) (e : SyncErr)
    (h : extractLines ctx ⟨false, 0, []⟩ lines = Except.error e) :
    extractFileSnips ctx lines = Except.error e := by
  simp [extractFileSnips, h]

/-- A capture-start line with no extractable id aborts the scan from any
non-capturing state, whether or not it also contains a capture-end marker. -/
theorem extractLine_start_nomatch_any (ctx : ExtractCtx) (c : Nat) (snips : List Snippet)
    (line : String) (h2 : includesSub line readstart = true) (hid : extractID line = none) :
    extractLine ctx ⟨false, c, snips⟩ line = Except.error SyncErr.nullMatch := by
  cases hre : includesSub line readend <;> simp [extractLine, h2, hid, hre]

/-- Splice side of malformed-marker propagation: the first line containing
the insertion-start marker has no extractable id, so the pass fails with the
`TypeError` and no output file is produced. -/
theorem spliceLoop_nullMatch (snip : Snippet) (front : List String) (bad : String)
    (rest : List String)
    (hfront : ∀ l ∈ front, includesSub l writestart = false)
    (hbad : includesSub bad writestart = true) (hid : extractID bad = none) :
    ∀ fuel : Nat, front.length + 1 ≤ fuel →
      spliceLoop snip fuel (front ++ bad :: rest) 0 false 0 =
        Except.error SyncErr.nullMatch := by
  intro fuel hfuel
  have hexact : spliceLoop snip (front.length + 1) (front ++ bad :: rest) 0 false 0 =
      Except.error SyncErr.nullMatch := by
    have ph1 := spliceLoop_nostart_phase snip front hfront [] (bad :: rest) 1 0
    simp only [List.nil_append, List.length_nil, Nat.zero_add] at ph1
    rw [ph1, show (1 : Nat) = 0 + 1 from rfl,
      spliceLoop_cons_step snip 0 front bad rest false 0,
      spliceStartCheck_bad false 0 front.length hbad hid, exbind_err]
  exact spliceLoop_mono snip _ fuel _ _ _ _ _ hexact (by simp) hfuel

/-- Extraction side of malformed-marker propagation: the first line
containing the capture-start marker has no extractable id, so the scan of
that file fails with the `TypeError` and no snippet list is produced. -/
theorem extractFileSnips_nullMatch (ctx : ExtractCtx) (front : List String) (bad : String)
    (rest : List String)
    (hfront : ∀ l ∈ front, includesSub l readstart = false ∧ includesSub l readend = false)
    (hbad : includesSub bad readstart = true) (hid : extractID bad = none) :
    extractFileSnips ctx (front ++ bad :: rest) = Except.error SyncErr.nullMatch := by
  apply extractFileSnips_err
  rw [extractLines_inert_phase ctx front hfront (bad :: rest) 0 []]
  exact extractLines_step_err ctx _ bad rest SyncErr.nullMatch
    (extractLine_start_nomatch_any ctx 0 [] bad hbad hid)

/-! ## Splice passes over whole region-structured files

The loop of `getSplicedFile` resumes at `idx + 1` in the array it has just
mutated, so after a replacement the index can land anywhere: inside the
inserted snippet lines, on a later marker line, or deep inside (or past)
later regions.  The lemmas below therefore quantify over an arbitrary
starting index into an arbitrary already-scanned block. -/

/-- `(A ++ B).drop n = B.drop (n - A.length)` when the drop passes `A`. -/
theorem drop_append_ge {α : Type} (A B : List α) :
    ∀ n : Nat, A.length ≤ n → (A ++ B).drop n = B.drop (n - A.length) := by
  induction A with
  | nil => intro n _; simp
  | cons a A ihA =>
    intro n hn
    cases n with
    | zero => simp at hn
    | succ n =>
      simp only [List.cons_append, List.drop_succ_cons, List.length_cons, Nat.succ_sub_succ]
      exact ihA n (by simpa using hn)

/-- Membership in a dropped append comes from the dropped left part or from
the right part. -/
theorem mem_drop_append {α : Type} (A B : List α) :
    ∀ (n : Nat) (l : α), l ∈ (A ++ B).drop n → l ∈ A.drop n ∨ l ∈ B := by
  induction A with
  | nil => intro n l h; exact Or.inr (mem_of_mem_dropN n B h)
  | cons a A ihA =>
    intro n l h
    cases n with
    | zero =>
      rcases List.mem_cons.mp h with h | h
      · exact Or.inl (by simp [h])
      · rcases List.mem_append.mp h with h | h
        · exact Or.inl (by simp [h])
        · exact Or.inr h
    | succ n =>
      simp only [List.cons_append, List.drop_succ_cons] at h
      rcases ihA n l h with h | h
      · exact Or.inl (by simpa using h)
      · exact Or.inr h

/-- `buildTarget` of no regions. -/
theorem buildTarget_nil (post : List String) : buildTarget [] post = post := by
  simp [buildTarget]

/-- `buildTarget` of a leading region, in scan-friendly shape. -/
theorem buildTarget_cons (r : InsRegion) (rs : List InsRegion) (post : List String) :
    buildTarget (r :: rs) post =
      r.pre ++ r.startLine :: (r.body ++ r.endLine :: buildTarget rs post) := by
  simp [buildTarget, insRegionLines]

/-- Well-formedness of one insertion region for the splice pass: the gap is
free of insertion-start markers; the start line contains the insertion-start
marker, no insertion-end marker, and an id the pattern can extract; the
interior is free of both markers; the end line contains the insertion-end
marker and no insertion-start marker. -/
def GoodSpliceRegion (r : InsRegion) : Prop :=
  (∀ l ∈ r.pre, includesSub l writestart = false) ∧
  includesSub r.startLine writestart = true ∧
  includesSub r.startLine writeend = false ∧
  (extractID r.startLine).isSome = true ∧
  (∀ l ∈ r.body, includesSub l writestart = false ∧ includesSub l writeend = false) ∧
  includesSub r.endLine writeend = true ∧
  includesSub r.endLine writestart = false

instance : DecidablePred GoodSpliceRegion := fun r => by
  unfold GoodSpliceRegion
  infer_instance

/-- Splice-level well-formedness implies clear-level well-formedness. -/
theorem GoodSpliceRegion.toGoodInsRegion {r : InsRegion} (h : GoodSpliceRegion r) :
    GoodInsRegion r :=
  ⟨h.1, h.2.1, fun l hl => (h.2.2.2.2.1 l hl).2, h.2.2.2.2.2.1, h.2.2.2.2.2.2⟩

/-- Fuel budget for one splice pass over a region-structured file, every
region interior and the snippet block being at most `K` lines. -/
def costK (K : Nat) (post : List String) : List InsRegion → Nat
  | [] => post.length
  | r :: rs => r.pre.length + 2 * K + 2 + costK K post rs

/-- The insertion-start branch on a line whose id does not match. -/
theorem spliceStartCheck_miss {snip : Snippet} {line : String} (look : Bool) (ss idx : Nat)
    (i : String) (h : includesSub line writestart = true)
    (hid : extractID line = some i) (hne : i ≠ snip.id) :
    spliceStartCheck snip line look ss idx = Except.ok (look, ss) := by
  simp [spliceStartCheck, h, hid, hne]

/-- Entering a region file: scan from `idx` to the end of a block whose
unscanned part is free of insertion-start markers. -/
theorem spliceLoop_enter (snip : Snippet) (P0 rest : List String) (idx f ss : Nat)
    (hdrop : ∀ l ∈ P0.drop idx, includesSub l writestart = false)
    (hidx : idx ≤ P0.length) :
    spliceLoop snip ((P0.length - idx) + f) (P0 ++ rest) idx false ss =
      spliceLoop snip f (P0 ++ rest) P0.length false ss := by
  have hsplit : P0 ++ rest = P0.take idx ++ (P0.drop idx ++ rest) := by
    rw [← List.append_assoc, List.take_append_drop]
  have hlentake : (P0.take idx).length = idx := by
    simp only [List.length_take] <;> omega
  have hlendrop : (P0.drop idx).length = P0.length - idx := by
    simp only [List.length_drop] <;> omega
  have ph := spliceLoop_nostart_phase snip (P0.drop idx) hdrop (P0.take idx) rest f ss
  rw [hlentake, hlendrop] at ph
  rw [hsplit, ph, ← hsplit]
  rw [show idx + (P0.length - idx) = P0.length from by omega]

/-- Processing one region whose start line matches the snippet id, from the
position of its start line: the interior is replaced by the snippet lines
and the loop resumes just after the position the end line had. -/
theorem spliceRegion_matched (snip : Snippet) (P0 body T : List String) (s e : String)
    (hsS : includesSub s writestart = true) (hsE : includesSub s writeend = false)
    (hsid : extractID s = some snip.id)
    (hbody : ∀ l ∈ body, includesSub l writestart = false ∧ includesSub l writeend = false)
    (heE : includesSub e writeend = true) (heS : includesSub e writestart = false)
    (f ss : Nat) :
    spliceLoop snip ((body.length + 2) + f) (P0 ++ s :: (body ++ e :: T)) P0.length false ss =
      spliceLoop snip f ((P0 ++ [s]) ++ snip.lines ++ e :: T)
        (P0.length + body.length + 2) false (P0.length + 1) := by
  rw [show (body.length + 2) + f = ((body.length + 1) + f) + 1 from by omega]
  rw [spliceLoop_cons_step snip ((body.length + 1) + f) P0 s (body ++ e :: T) false ss]
  rw [spliceStartCheck_hit false ss P0.length hsS hsid, exbind_ok]
  rw [ite_bool_false _ _ _ (by simp [hsE])]
  have ph2 := spliceLoop_inert_phase snip body hbody (P0 ++ [s]) (e :: T) (1 + f)
    (P0.length + 1)
  simp only [List.append_assoc, List.cons_append, List.nil_append, List.length_append,
    List.length_cons, List.length_nil, Nat.zero_add] at ph2
  rw [show (body.length + 1) + f = body.length + (1 + f) from by omega]
  rw [ph2]
  rw [show 1 + f = f + 1 from by omega]
  have hre4 : P0 ++ s :: (body ++ e :: T) = ((P0 ++ [s]) ++ body) ++ e :: T := by simp
  have hlen4 : P0.length + 1 + body.length = ((P0 ++ [s]) ++ body).length := by
    simp only [List.length_append, List.length_cons, List.length_nil] <;> omega
  rw [hre4, hlen4, spliceLoop_cons_step snip f ((P0 ++ [s]) ++ body) e T true (P0.length + 1)]
  rw [spliceStartCheck_nostart true (P0.length + 1) ((P0 ++ [s]) ++ body).length heS,
    exbind_ok]
  simp only [heE, Bool.true_and, if_true]
  have htake : (((P0 ++ [s]) ++ body) ++ e :: T).take (P0.length + 1) = P0 ++ [s] := by
    rw [show ((P0 ++ [s]) ++ body) ++ e :: T = (P0 ++ [s]) ++ (body ++ e :: T) by simp]
    rw [show P0.length + 1 = (P0 ++ [s]).length by simp]
    exact take_len_append _ _
  have hdropE : (((P0 ++ [s]) ++ body) ++ e :: T).drop
      (P0.length + 1 + (((P0 ++ [s]) ++ body).length - (P0.length + 1))) = e :: T := by
    rw [show P0.length + 1 + (((P0 ++ [s]) ++ body).length - (P0.length + 1)) =
        ((P0 ++ [s]) ++ body).length from by
      simp only [List.length_append, List.length_cons, List.length_nil] <;> omega]
    exact drop_len_append _ _
  rw [htake, hdropE]
  rw [show ((P0 ++ [s]) ++ body).length + 1 = P0.length + body.length + 2 from by
    simp only [List.length_append, List.length_cons, List.length_nil] <;> omega]

/-- Processing one region whose start line does not match the snippet id,
from the position of its start line: nothing changes and the loop moves past
the region. -/
theorem spliceRegion_miss (snip : Snippet) (P0 body T : List String) (s e : String)
    (i : String)
    (hsS : includesSub s writestart = true)
    (hsid : extractID s = some i) (hne : i ≠ snip.id)
    (hbodyS : ∀ l ∈ body, includesSub l writestart = false)
    (heS : includesSub e writestart = false)
    (f ss : Nat) :
    spliceLoop snip ((body.length + 2) + f) (P0 ++ s :: (body ++ e :: T)) P0.length false ss =
      spliceLoop snip f (P0 ++ s :: (body ++ e :: T)) (P0.length + body.length + 2) false ss := by
  rw [show (body.length + 2) + f = ((body.length + 1) + f) + 1 from by omega]
  rw [spliceLoop_cons_step snip ((body.length + 1) + f) P0 s (body ++ e :: T) false ss]
  rw [spliceStartCheck_miss false ss P0.length i hsS hsid hne, exbind_ok]
  rw [ite_bool_false _ _ _ (by simp)]
  have hbe : ∀ l ∈ body ++ [e], includesSub l writestart = false := by
    intro l hl
    rcases List.mem_append.mp hl with h | h
    · exact hbodyS l h
    · rcases List.mem_cons.mp h with h | h
      · exact h ▸ heS
      · simp at h
  have ph := spliceLoop_nostart_phase snip (body ++ [e]) hbe (P0 ++ [s]) T f ss
  simp only [List.append_assoc, List.cons_append, List.nil_append, List.length_append,
    List.length_cons, List.length_nil, Nat.zero_add] at ph
  rw [show P0 ++ s :: (body ++ e :: T) = P0 ++ s :: (body ++ (e :: (T ++ []))) from by simp] at ph ⊢
  rw [ph]
  rw [show P0.length + 1 + (body.length + 1) = P0.length + body.length + 2 from by omega]

/-- One splice pass over a well-formed region-structured file, entered at any
index and in any snippet-search state, terminates successfully and preserves
the marker skeleton: the result is again region-structured with the same
gaps and marker lines, only region interiors possibly changed, and the new
interiors satisfy the same bounds. -/
theorem spliceLoop_skeleton (snip : Snippet) (K : Nat) (post : List String)
    (hsnipS : ∀ l ∈ snip.lines, includesSub l writestart = false)
    (hsnipE : ∀ l ∈ snip.lines, includesSub l writeend = false)
    (hsnipK : snip.lines.length ≤ K)
    (hpost : ∀ l ∈ post, includesSub l writestart = false) :
    ∀ rs : List InsRegion,
      (∀ r ∈ rs, GoodSpliceRegion r) →
      (∀ r ∈ rs, r.body.length ≤ K) →
      ∀ (pfx : List String) (idx ss fuel : Nat),
        (∀ l ∈ pfx.drop idx, includesSub l writestart = false) →
        pfx.length - idx + costK K post rs ≤ fuel →
        ∃ rs' : List InsRegion,
          spliceLoop snip fuel (pfx ++ buildTarget rs post) idx false ss =
            Except.ok (pfx ++ buildTarget rs' post) ∧
          rs'.map (fun x => { x with body := ([] : List String) }) =
            rs.map (fun x => { x with body := ([] : List String) }) ∧
          (∀ r ∈ rs', GoodSpliceRegion r) ∧
          (∀ r ∈ rs', r.body.length ≤ K) := by
  intro rs
  induction rs with
  | nil =>
    intro _ _ pfx idx ss fuel hpfx hfuel
    refine ⟨[], ?_, rfl, by simp, by simp⟩
    rw [buildTarget_nil]
    apply spliceLoop_tail_nostart
    · intro l hl
      rcases mem_drop_append pfx post idx l hl with h | h
      · exact hpfx l h
      · exact hpost l h
    · simp only [costK] at hfuel
      simp only [List.length_append]
      omega
  | cons r rs₂ ih =>
    intro hg hk pfx idx ss fuel hpfx hfuel
    obtain ⟨g1, g2, g3, g4, g5, g6, g7⟩ := hg r (List.mem_cons_self r rs₂)
    have hg₂ : ∀ x ∈ rs₂, GoodSpliceRegion x := fun x hx => hg x (List.mem_cons_of_mem r hx)
    have hk₂ : ∀ x ∈ rs₂, x.body.length ≤ K := fun x hx => hk x (List.mem_cons_of_mem r hx)
    have hkr : r.body.length ≤ K := hk r (List.mem_cons_self r rs₂)
    simp only [costK] at hfuel
    by_cases hcase : idx ≤ (pfx ++ r.pre).length
    · -- the region's start line is still ahead: the pass reaches and checks it
      have hP0drop : ∀ l ∈ (pfx ++ r.pre).drop idx, includesSub l writestart = false := by
        intro l hl
        rcases mem_drop_append pfx r.pre idx l hl with h | h
        · exact hpfx l h
        · exact g1 l h
      obtain ⟨i, hi⟩ := Option.isSome_iff_exists.mp g4
      by_cases hmatch : i = snip.id
      · -- matching id: the interior is replaced by the snippet lines
        obtain ⟨rs', ih1, ih2, ih3, ih4⟩ := ih hg₂ hk₂
          (((pfx ++ r.pre) ++ [r.startLine]) ++ snip.lines ++ [r.endLine])
          ((pfx ++ r.pre).length + r.body.length + 2) ((pfx ++ r.pre).length + 1)
          (fuel - ((pfx ++ r.pre).length - idx) - (r.body.length + 2))
          (by
            intro l hl
            rw [show ((pfx ++ r.pre) ++ [r.startLine]) ++ snip.lines ++ [r.endLine] =
                ((pfx ++ r.pre) ++ [r.startLine]) ++ (snip.lines ++ [r.endLine]) from by simp,
              drop_append_ge _ _ _ (by
                simp only [List.length_append, List.length_cons, List.length_nil] <;> omega)] at hl
            have h2 := mem_of_mem_dropN _ _ hl
            rcases List.mem_append.mp h2 with h | h
            · exact hsnipS l h
            · rcases List.mem_cons.mp h with h | h
              · exact h ▸ g7
              · simp at h)
          (by
            simp only [List.length_append, List.length_cons, List.length_nil] at hcase ⊢
            omega)
        refine ⟨{ r with body := snip.lines } :: rs', ?_, ?_, ?_, ?_⟩
        · rw [show pfx ++ buildTarget (r :: rs₂) post =
              (pfx ++ r.pre) ++ r.startLine :: (r.body ++ r.endLine :: buildTarget rs₂ post)
            from by rw [buildTarget_cons]; simp]
          rw [show fuel = ((pfx ++ r.pre).length - idx) + (fuel - ((pfx ++ r.pre).length - idx))
            from by simp only [List.length_append] at hcase ⊢ <;> omega]
          rw [spliceLoop_enter snip (pfx ++ r.pre)
            (r.startLine :: (r.body ++ r.endLine :: buildTarget rs₂ post)) idx
            (fuel - ((pfx ++ r.pre).length - idx)) ss hP0drop hcase]
          rw [show fuel - ((pfx ++ r.pre).length - idx) =
              (r.body.length + 2) + (fuel - ((pfx ++ r.pre).length - idx) - (r.body.length + 2))
            from by simp only [List.length_append] at hcase hfuel ⊢ <;> omega]
          rw [spliceRegion_matched snip (pfx ++ r.pre) r.body (buildTarget rs₂ post)
            r.startLine r.endLine g2 g3 (by rw [hi, hmatch]) g5 g6 g7
            (fuel - ((pfx ++ r.pre).length - idx) - (r.body.length + 2)) ss]
          rw [show ((pfx ++ r.pre) ++ [r.startLine]) ++ snip.lines ++
                r.endLine :: buildTarget rs₂ post =
              (((pfx ++ r.pre) ++ [r.startLine]) ++ snip.lines ++ [r.endLine]) ++
                buildTarget rs₂ post from by simp]
          rw [ih1, buildTarget_cons]
          simp
        · simp only [List.map_cons, ih2]
        · intro x hx
          rcases List.mem_cons.mp hx with rfl | h
          · exact ⟨g1, g2, g3, g4, fun l hl => ⟨hsnipS l hl, hsnipE l hl⟩, g6, g7⟩
          · exact ih3 x h
        · intro x hx
          rcases List.mem_cons.mp hx with rfl | h
          · exact hsnipK
          · exact ih4 x h
      · -- non-matching id: the region is left untouched
        obtain ⟨rs', ih1, ih2, ih3, ih4⟩ := ih hg₂ hk₂
          (((pfx ++ r.pre) ++ [r.startLine]) ++ (r.body ++ [r.endLine]))
          ((pfx ++ r.pre).length + r.body.length + 2) ss
          (fuel - ((pfx ++ r.pre).length - idx) - (r.body.length + 2))
          (by
            intro l hl
            rw [List.drop_eq_nil_of_le (by
              simp only [List.length_append, List.length_cons, List.length_nil] <;> omega)] at hl
            simp at hl)
          (by
            simp only [List.length_append, List.length_cons, List.length_nil] at hcase ⊢
            omega)
        refine ⟨r :: rs', ?_, ?_, ?_, ?_⟩
        · rw [show pfx ++ buildTarget (r :: rs₂) post =
              (pfx ++ r.pre) ++ r.startLine :: (r.body ++ r.endLine :: buildTarget rs₂ post)
            from by rw [buildTarget_cons]; simp]
          rw [show fuel = ((pfx ++ r.pre).length - idx) + (fuel - ((pfx ++ r.pre).length - idx))
            from by simp only [List.length_append] at hcase ⊢ <;> omega]
          rw [spliceLoop_enter snip (pfx ++ r.pre)
            (r.startLine :: (r.body ++ r.endLine :: buildTarget rs₂ post)) idx
            (fuel - ((pfx ++ r.pre).length - idx)) ss hP0drop hcase]
          rw [show fuel - ((pfx ++ r.pre).length - idx) =
              (r.body.length + 2) + (fuel - ((pfx ++ r.pre).length - idx) - (r.body.length + 2))
            from by simp only [List.length_append] at hcase hfuel ⊢ <;> omega]
          rw [spliceRegion_miss snip (pfx ++ r.pre) r.body (buildTarget rs₂ post)
            r.startLine r.endLine i g2 hi hmatch (fun l hl => (g5 l hl).1) g7
            (fuel - ((pfx ++ r.pre).length - idx) - (r.body.length + 2)) ss]
          rw [show (pfx ++ r.pre) ++ r.startLine :: (r.body ++ r.endLine :: buildTarget rs₂ post) =
              (((pfx ++ r.pre) ++ [r.startLine]) ++ (r.body ++ [r.endLine])) ++
                buildTarget rs₂ post from by simp]
          rw [ih1, buildTarget_cons]
          simp
        · simp only [List.map_cons, ih2]
        · intro x hx
          rcases List.mem_cons.mp hx with rfl | h
          · exact ⟨g1, g2, g3, g4, g5, g6, g7⟩
          · exact ih3 x h
        · intro x hx
          rcases List.mem_cons.mp hx with rfl | h
          · exact hkr
          · exact ih4 x h
    · -- the index already lies past the region's start line: the region is skipped
      obtain ⟨rs', ih1, ih2, ih3, ih4⟩ := ih hg₂ hk₂ (pfx ++ insRegionLines r) idx ss fuel
        (by
          intro l hl
          rw [show pfx ++ insRegionLines r =
              (pfx ++ (r.pre ++ [r.startLine])) ++ (r.body ++ [r.endLine]) from by
            simp [insRegionLines]] at hl
          rw [drop_append_ge _ _ idx (by
            simp only [List.length_append, List.length_cons, List.length_nil] at hcase ⊢ <;>
              omega)] at hl
          have h2 := mem_of_mem_dropN _ _ hl
          rcases List.mem_append.mp h2 with h | h
          · exact (g5 l h).1
          · rcases List.mem_cons.mp h with h | h
            · exact h ▸ g7
            · simp at h)
        (by
          simp only [insRegionLines, List.length_append, List.length_cons, List.length_nil]
            at hcase ⊢
          omega)
      refine ⟨r :: rs', ?_, ?_, ?_, ?_⟩
      · rw [show pfx ++ buildTarget (r :: rs₂) post =
            (pfx ++ insRegionLines r) ++ buildTarget rs₂ post from by
          rw [buildTarget_cons]; simp [insRegionLines]]
        rw [ih1, buildTarget_cons]
        simp [insRegionLines]
      · simp only [List.map_cons, ih2]
      · intro x hx
        rcases List.mem_cons.mp hx with rfl | h
        · exact ⟨g1, g2, g3, g4, g5, g6, g7⟩
        · exact ih3 x h
      · intro x hx
        rcases List.mem_cons.mp hx with rfl | h
        · exact hkr
        · exact ih4 x h

/-- The effect of one splice pass on a single region: a matching id gets the
snippet lines as interior, any other region is untouched. -/
def spliceBody (snip : Snippet) (r : InsRegion) : InsRegion :=
  if extractID r.startLine = some snip.id then { r with body := snip.lines } else r

/-- No replacement shrinks the file past the next region's insertion-start
line: whenever a region matches the snippet id, its interior is no longer
than the snippet block plus the gap to the next region. -/
def noSkip (snip : Snippet) : List InsRegion → Bool
  | [] => true
  | [_] => true
  | r1 :: r2 :: rs =>
    (if extractID r1.startLine = some snip.id then
      decide (r1.body.length ≤ snip.lines.length + r2.pre.length)
    else true) && noSkip snip (r2 :: rs)

/-- Under the no-skip condition, one splice pass replaces the interior of
every region whose id matches the snippet, and of no other region, at the
recomputed positions, for any number of regions. -/
theorem spliceLoop_splices_all (snip : Snippet) (K : Nat) (post : List String)
    (hsnipS : ∀ l ∈ snip.lines, includesSub l writestart = false)
    (hsnipE : ∀ l ∈ snip.lines, includesSub l writeend = false)
    (hsnipK : snip.lines.length ≤ K)
    (hpost : ∀ l ∈ post, includesSub l writestart = false) :
    ∀ rs : List InsRegion,
      (∀ r ∈ rs, GoodSpliceRegion r) →
      (∀ r ∈ rs, r.body.length ≤ K) →
      noSkip snip rs = true →
      ∀ (pfx : List String) (idx ss fuel : Nat),
        (∀ l ∈ pfx.drop idx, includesSub l writestart = false) →
        (∀ r₀ rs₀, rs = r₀ :: rs₀ → idx ≤ pfx.length + r₀.pre.length) →
        pfx.length - idx + costK K post rs ≤ fuel →
        spliceLoop snip fuel (pfx ++ buildTarget rs post) idx false ss =
          Except.ok (pfx ++ buildTarget (rs.map (spliceBody snip)) post) := by
  intro rs
  induction rs with
  | nil =>
    intro _ _ _ pfx idx ss fuel hpfx _ hfuel
    simp only [List.map_nil, buildTarget_nil]
    apply spliceLoop_tail_nostart
    · intro l hl
      rcases mem_drop_append pfx post idx l hl with h | h
      · exact hpfx l h
      · exact hpost l h
    · simp only [costK] at hfuel
      simp only [List.length_append]
      omega
  | cons r rs₂ ih =>
    intro hg hk hns pfx idx ss fuel hpfx hidx0 hfuel
    obtain ⟨g1, g2, g3, g4, g5, g6, g7⟩ := hg r (List.mem_cons_self r rs₂)
    have hg₂ : ∀ x ∈ rs₂, GoodSpliceRegion x := fun x hx => hg x (List.mem_cons_of_mem r hx)
    have hk₂ : ∀ x ∈ rs₂, x.body.length ≤ K := fun x hx => hk x (List.mem_cons_of_mem r hx)
    have hkr : r.body.length ≤ K := hk r (List.mem_cons_self r rs₂)
    simp only [costK] at hfuel
    have hidx : idx ≤ (pfx ++ r.pre).length := by
      simp only [List.length_append]
      exact hidx0 r rs₂ rfl
    have hsplit2 : noSkip snip rs₂ = true ∧
        (∀ r2 rs₃, rs₂ = r2 :: rs₃ → extractID r.startLine = some snip.id →
          r.body.length ≤ snip.lines.length + r2.pre.length) := by
      cases rs₂ with
      | nil => exact ⟨rfl, fun r2 rs₃ h => by simp at h⟩
      | cons r2 rs₃ =>
        simp only [noSkip, Bool.and_eq_true] at hns
        refine ⟨hns.2, ?_⟩
        intro r2' rs₃' heq hid
        injection heq with h1 h2
        subst h1
        have h3 := hns.1
        rw [if_pos hid] at h3
        exact of_decide_eq_true h3
    have hP0drop : ∀ l ∈ (pfx ++ r.pre).drop idx, includesSub l writestart = false := by
      intro l hl
      rcases mem_drop_append pfx r.pre idx l hl with h | h
      · exact hpfx l h
      · exact g1 l h
    obtain ⟨i, hi⟩ := Option.isSome_iff_exists.mp g4
    by_cases hmatch : i = snip.id
    · -- matching id: the interior is replaced; no-skip keeps the next start line ahead
      have hid2 : extractID r.startLine = some snip.id := by rw [hi, hmatch]
      have hmain := ih hg₂ hk₂ hsplit2.1
        (((pfx ++ r.pre) ++ [r.startLine]) ++ snip.lines ++ [r.endLine])
        ((pfx ++ r.pre).length + r.body.length + 2) ((pfx ++ r.pre).length + 1)
        (fuel - ((pfx ++ r.pre).length - idx) - (r.body.length + 2))
        (by
          intro l hl
          rw [show ((pfx ++ r.pre) ++ [r.startLine]) ++ snip.lines ++ [r.endLine] =
              ((pfx ++ r.pre) ++ [r.startLine]) ++ (snip.lines ++ [r.endLine]) from by simp,
            drop_append_ge _ _ _ (by
              simp only [List.length_append, List.length_cons, List.length_nil] <;> omega)] at hl
          have h2 := mem_of_mem_dropN _ _ hl
          rcases List.mem_append.mp h2 with h | h
          · exact hsnipS l h
          · rcases List.mem_cons.mp h with h | h
            · exact h ▸ g7
            · simp at h)
        (by
          intro r₀ rs₀ h
          have := hsplit2.2 r₀ rs₀ h hid2
          simp only [List.length_append, List.length_cons, List.length_nil]
          omega)
        (by
          simp only [List.length_append, List.length_cons, List.length_nil] at hidx ⊢
          omega)
      rw [show pfx ++ buildTarget (r :: rs₂) post =
          (pfx ++ r.pre) ++ r.startLine :: (r.body ++ r.endLine :: buildTarget rs₂ post)
        from by rw [buildTarget_cons]; simp]
      rw [show fuel = ((pfx ++ r.pre).length - idx) + (fuel - ((pfx ++ r.pre).length - idx))
        from by simp only [List.length_append] at hidx ⊢ <;> omega]
      rw [spliceLoop_enter snip (pfx ++ r.pre)
        (r.startLine :: (r.body ++ r.endLine :: buildTarget rs₂ post)) idx
        (fuel - ((pfx ++ r.pre).length - idx)) ss hP0drop hidx]
      rw [show fuel - ((pfx ++ r.pre).length - idx) =
          (r.body.length + 2) + (fuel - ((pfx ++ r.pre).length - idx) - (r.body.length + 2))
        from by simp only [List.length_append] at hidx hfuel ⊢ <;> omega]
      rw [spliceRegion_matched snip (pfx ++ r.pre) r.body (buildTarget rs₂ post)
        r.startLine r.endLine g2 g3 hid2 g5 g6 g7
        (fuel - ((pfx ++ r.pre).length - idx) - (r.body.length + 2)) ss]
      rw [show ((pfx ++ r.pre) ++ [r.startLine]) ++ snip.lines ++
            r.endLine :: buildTarget rs₂ post =
          (((pfx ++ r.pre) ++ [r.startLine]) ++ snip.lines ++ [r.endLine]) ++
            buildTarget rs₂ post from by simp]
      rw [hmain]
      rw [List.map_cons, show spliceBody snip r = { r with body := snip.lines } from by
        simp [spliceBody, hid2], buildTarget_cons]
      simp
    · -- non-matching id: the region is untouched
      have hrid : spliceBody snip r = r := by
        simp [spliceBody, hi, hmatch]
      have hmain := ih hg₂ hk₂ hsplit2.1
        (((pfx ++ r.pre) ++ [r.startLine]) ++ (r.body ++ [r.endLine]))
        ((pfx ++ r.pre).length + r.body.length + 2) ss
        (fuel - ((pfx ++ r.pre).length - idx) - (r.body.length + 2))
        (by
          intro l hl
          rw [List.drop_eq_nil_of_le (by
            simp only [List.length_append, List.length_cons, List.length_nil] <;> omega)] at hl
          simp at hl)
        (by
          intro r₀ rs₀ h
          simp only [List.length_append, List.length_cons, List.length_nil]
          omega)
        (by
          simp only [List.length_append, List.length_cons, List.length_nil] at hidx ⊢
          omega)
      rw [show pfx ++ buildTarget (r :: rs₂) post =
          (pfx ++ r.pre) ++ r.startLine :: (r.body ++ r.endLine :: buildTarget rs₂ post)
        from by rw [buildTarget_cons]; simp]
      rw [show fuel = ((pfx ++ r.pre).length - idx) + (fuel - ((pfx ++ r.pre).length - idx))
        from by simp only [List.length_append] at hidx ⊢ <;> omega]
      rw [spliceLoop_enter snip (pfx ++ r.pre)
        (r.startLine :: (r.body ++ r.endLine :: buildTarget rs₂ post)) idx
        (fuel - ((pfx ++ r.pre).length - idx)) ss hP0drop hidx]
      rw [show fuel - ((pfx ++ r.pre).length - idx) =
          (r.body.length + 2) + (fuel - ((pfx ++ r.pre).length - idx) - (r.body.length + 2))
        from by simp only [List.length_append] at hidx hfuel ⊢ <;> omega]
      rw [spliceRegion_miss snip (pfx ++ r.pre) r.body (buildTarget rs₂ post)
        r.startLine r.endLine i g2 hi hmatch (fun l hl => (g5 l hl).1) g7
        (fuel - ((pfx ++ r.pre).length - idx) - (r.body.length + 2)) ss]
      rw [show (pfx ++ r.pre) ++ r.startLine :: (r.body ++ r.endLine :: buildTarget rs₂ post) =
          (((pfx ++ r.pre) ++ [r.startLine]) ++ (r.body ++ [r.endLine])) ++
            buildTarget rs₂ post from by simp]
      rw [hmain]
      rw [List.map_cons, hrid, buildTarget_cons]
      simp

/-- The fuel budget `costK` depends only on the marker skeleton. -/
theorem costK_congr (K : Nat) (post : List String) :
    ∀ rs rs2 : List InsRegion,
      rs2.map (fun x => { x with body := ([] : List String) }) =
        rs.map (fun x => { x with body := ([] : List String) }) →
      costK K post rs2 = costK K post rs := by
  intro rs
  induction rs with
  | nil =>
    intro rs2 h
    cases rs2 with
    | nil => rfl
    | cons => simp at h
  | cons r rs ih =>
    intro rs2 h
    cases rs2 with
    | nil => simp at h
    | cons r2 rs₃ =>
      simp only [List.map_cons, List.cons.injEq] at h
      have hpre : r2.pre = r.pre := by simpa using congrArg InsRegion.pre h.1
      simp only [costK, hpre, ih rs₃ h.2]

/-- `spliceSnippets` over one file: each snippet of the list is spliced in
turn into the running file (one splice pass per snippet). -/
def spliceAll (fuel : Nat) : List Snippet → List String → Except SyncErr (List String)
  | [], ls => Except.ok ls
  | s :: rest, ls =>
    match spliceLoop s fuel ls 0 false 0 with
    | Except.error e => Except.error e
    | Except.ok ls2 => spliceAll fuel rest ls2

/-- `n` successive runs of the whole splice phase with the same snippet
list. -/
def spliceAllIter (fuel : Nat) (snips : List Snippet) : Nat → List String → Except SyncErr (List String)
  | 0, ls => Except.ok ls
  | n + 1, ls =>
    match spliceAll fuel snips ls with
    | Except.error e => Except.error e
    | Except.ok ls2 => spliceAllIter fuel snips n ls2

/-- One run of the splice phase with any marker-free snippet list preserves
the marker skeleton of a well-formed region file. -/
theorem spliceAll_skeleton (K : Nat) (post : List String)
    (hpost : ∀ l ∈ post, includesSub l writestart = false) :
    ∀ snips : List Snippet,
      (∀ s ∈ snips,
        (∀ l ∈ s.lines, includesSub l writestart = false ∧ includesSub l writeend = false) ∧
        s.lines.length ≤ K) →
      ∀ rs : List InsRegion,
        (∀ r ∈ rs, GoodSpliceRegion r) →
        (∀ r ∈ rs, r.body.length ≤ K) →
        ∀ fuel : Nat, costK K post rs ≤ fuel →
        ∃ rs2 : List InsRegion,
          spliceAll fuel snips (buildTarget rs post) = Except.ok (buildTarget rs2 post) ∧
          rs2.map (fun x => { x with body := ([] : List String) }) =
            rs.map (fun x => { x with body := ([] : List String) }) ∧
          (∀ r ∈ rs2, GoodSpliceRegion r) ∧
          (∀ r ∈ rs2, r.body.length ≤ K) := by
  intro snips
  induction snips with
  | nil =>
    intro _ rs hg hk fuel _
    exact ⟨rs, rfl, rfl, hg, hk⟩
  | cons s rest ih =>
    intro hsnips rs hg hk fuel hfuel
    obtain ⟨hs1, hs2⟩ := hsnips s (List.mem_cons_self s rest)
    obtain ⟨rs₁, h1, h2, h3, h4⟩ := spliceLoop_skeleton s K post
      (fun l hl => (hs1 l hl).1) (fun l hl => (hs1 l hl).2) hs2 hpost rs hg hk
      [] 0 0 fuel (by simp) (by simpa using hfuel)
    have h1b : spliceLoop s fuel (buildTarget rs post) 0 false 0 =
        Except.ok (buildTarget rs₁ post) := by simpa using h1
    obtain ⟨rs₂, h5, h6, h7, h8⟩ := ih (fun x hx => hsnips x (List.mem_cons_of_mem s hx))
      rs₁ h3 h4 fuel (by rw [costK_congr K post rs rs₁ h2]; exact hfuel)
    refine ⟨rs₂, ?_, h6.trans h2, h7, h8⟩
    simp only [spliceAll]
    rw [h1b]
    exact h5

/-- Any number of runs of the splice phase preserves the marker skeleton. -/
theorem spliceAllIter_skeleton (K : Nat) (post : List String)
    (hpost : ∀ l ∈ post, includesSub l writestart = false)
    (snips : List Snippet)
    (hsnips : ∀ s ∈ snips,
      (∀ l ∈ s.lines, includesSub l writestart = false ∧ includesSub l writeend = false) ∧
      s.lines.length ≤ K) :
    ∀ (n : Nat) (rs : List InsRegion),
      (∀ r ∈ rs, GoodSpliceRegion r) →
      (∀ r ∈ rs, r.body.length ≤ K) →
      ∀ fuel : Nat, costK K post rs ≤ fuel →
      ∃ rs2 : List InsRegion,
        spliceAllIter fuel snips n (buildTarget rs post) = Except.ok (buildTarget rs2 post) ∧
        rs2.map (fun x => { x with body := ([] : List String) }) =
          rs.map (fun x => { x with body := ([] : List String) }) ∧
        (∀ r ∈ rs2, GoodSpliceRegion r) ∧
        (∀ r ∈ rs2, r.body.length ≤ K) := by
  intro n
  induction n with
  | zero =>
    intro rs hg hk fuel _
    exact ⟨rs, rfl, rfl, hg, hk⟩
  | succ n ih =>
    intro rs hg hk fuel hfuel
    obtain ⟨rs₁, h1, h2, h3, h4⟩ := spliceAll_skeleton K post hpost snips hsnips rs hg hk
      fuel hfuel
    obtain ⟨rs₂, h5, h6, h7, h8⟩ := ih rs₁ h3 h4 fuel
      (by rw [costK_congr K post rs rs₁ h2]; exact hfuel)
    refine ⟨rs₂, ?_, h6.trans h2, h7, h8⟩
    simp only [spliceAllIter]
    rw [h1]
    exact h5

/-- A capture-start line with no extractable id makes the scanner fail from
every state: either the capture append has already hit an undefined slot, or
the id extraction itself throws. -/
theorem extractLine_bad_errors (ctx : ExtractCtx) (st : ExtractState) (bad : String)
    (hbad : includesSub bad readstart = true) (hid : extractID bad = none) :
    ∃ e : SyncErr, extractLine ctx st bad = Except.error e := by
  cases hre : includesSub bad readend with
  | false =>
    cases hcap : st.capture with
    | false => exact ⟨SyncErr.nullMatch, by simp [extractLine, hre, hcap, hbad, hid]⟩
    | true =>
      by_cases hlt : st.fileSnipsCount < st.fileSnips.length
      · exact ⟨SyncErr.nullMatch, by simp [extractLine, hre, hcap, hbad, hid, hlt]⟩
      · exact ⟨SyncErr.undefinedSnip, by simp [extractLine, hre, hcap, hbad, hid, hlt]⟩
  | true => exact ⟨SyncErr.nullMatch, by simp [extractLine, hre, hbad, hid]⟩

/-- The line scan never skips a line it has not yet consumed: a bad
capture-start anywhere in the remaining lines forces an error from any
state. -/
theorem extractLines_bad_errors (ctx : ExtractCtx) (bad : String)
    (hbad : includesSub bad readstart = true) (hid : extractID bad = none) :
    ∀ (lines : List String) (st : ExtractState), bad ∈ lines →
      ∃ e : SyncErr, extractLines ctx st lines = Except.error e := by
  intro lines
  induction lines with
  | nil => intro st h; simp at h
  | cons l ls ih =>
    intro st hmem
    rcases List.mem_cons.mp hmem with rfl | h
    · obtain ⟨e, he⟩ := extractLine_bad_errors ctx st bad hbad hid
      exact ⟨e, by simp only [extractLines, he]⟩
    · cases hstep : extractLine ctx st l with
      | error e => exact ⟨e, by simp only [extractLines, hstep]⟩
      | ok st2 =>
        obtain ⟨e, he⟩ := ih st2 h
        exact ⟨e, by simp only [extractLines, hstep]; exact he⟩

/-! ## Concrete objects used by witnesses and counterexamples -/

/-- Example file path. -/
def fpEx : FilePath := ⟨"f.js", "d", false⟩

/-- Example snippet whose id is the one the regex extracts from
`SNIPSTART my-id-1`, already formatted. -/
def snipJs : Snippet := ⟨"my-id", "js", "o", "r", none, fpEx, ["```js", "new", "```"]⟩

/-- Snippet with the literal id `id1` of the spec's splice example. -/
def snipId1 : Snippet := ⟨"id1", "js", "o", "r", none, fpEx, ["```js", "new", "```"]⟩

/-- Example extraction context. -/
def ctxEx : ExtractCtx := ⟨"go", "own", "repo", none, ⟨"f.go", "dir/sub", false⟩⟩

/-! ## Claims -/

/-- C3, counterexample: on the source line `"@@@START SNIPSTART my-id-1"` the
id-extraction regex does not yield `"my-id-1"`: the trailing `(\w+)` group of
`(\w+-\w+)+(\w+)` forces backtracking that ends the match at `"my-id"`. -/
theorem c3_counterexample : extractID "@@@START SNIPSTART my-id-1" ≠ some "my-id-1" := by
  decide

/-- C3, amended: on the source line `"@@@START SNIPSTART my-id-1"` id
extraction yields exactly `"my-id"` (not the full hyphenated token): the
pattern `(\w+-\w+)+(\w+)` cannot absorb the final `-1`, and backtracking
settles on `"my-id"`. -/
theorem c3_extract_id : extractID "@@@START SNIPSTART my-id-1" = some "my-id" := by
  decide

/-- C10: extraction is not total.  On the file whose first marker line is a
capture-end, later followed by a capture-start and an ordinary line, the
stray capture-end increments `fileSnipsCount` while no capture is active, so
the body append indexes one past the end of `fileSnips` and the scan fails
(`TypeError` on the `undefined` slot) instead of returning a snippet list. -/
theorem c10_extraction_not_total :
    extractFileSnips ctxEx ["@@@END", "@@@START SNIPSTART my-id-1", "hello"] =
      Except.error SyncErr.undefinedSnip := by
  decide

/-- C4: the clear operation keeps every gap and both marker lines of each
well-formed insertion region, in order, and removes exactly the interiors,
leaving every insertion region empty. -/
theorem c4_clear_empties_regions (name : String) (rs : List InsRegion) (post : List String)
    (hrs : ∀ r ∈ rs, GoodInsRegion r)
    (hpost : ∀ l ∈ post, includesSub l writestart = false) :
    getClearedFile ⟨name, buildTarget rs post⟩ =
      ⟨name, buildTarget (rs.map fun r => { r with body := [] }) post⟩ := by
  simp only [getClearedFile]
  rw [clearLoop_buildTarget rs post hrs hpost]

/-- C4, witness: clearing the spec's spliced example restores the empty
region. -/
theorem c4_clear_witness :
    getClearedFile ⟨"doc.md",
        buildTarget [⟨["x"], "<!--START id1-->", ["```js", "new", "```"], "<!--END-->"⟩]
          ["y"]⟩ =
      ⟨"doc.md",
        buildTarget
          (([⟨["x"], "<!--START id1-->", ["```js", "new", "```"], "<!--END-->"⟩] :
              List InsRegion).map fun r => { r with body := [] }) ["y"]⟩ :=
  c4_clear_empties_regions "doc.md" _ _ (by decide) (by decide)

/-- C1, counterexample: on the spec's own example — target lines
`["x", "<!--START id1-->", "old1", "old2", "<!--END-->", "y"]` and snippet
`id1` — the splice pass does not produce the claimed output at all: the
insertion-start line carries no `SNIPSTART` keyword, so `extractID` has no
match and the pass throws instead. -/
theorem c1_counterexample :
    getSplicedFileF 20 snipId1
        ⟨"doc.md", ["x", "<!--START id1-->", "old1", "old2", "<!--END-->", "y"]⟩ =
        Except.error SyncErr.nullMatch ∧
      getSplicedFileF 20 snipId1
          ⟨"doc.md", ["x", "<!--START id1-->", "old1", "old2", "<!--END-->", "y"]⟩ ≠
        Except.ok
          ⟨"doc.md", ["x", "<!--START id1-->", "```js", "new", "```", "<!--END-->", "y"]⟩ := by
  decide

/-- C1, amended: when the insertion-start line's extracted id equals the
snippet's id and is followed by an insertion-end line — and the marker lines
carry `SNIPSTART`-extractable ids, with the surrounding lines and snippet
lines free of interfering markers — the splice pass replaces exactly the
lines strictly between the two marker lines with the snippet's formatted
lines, keeping both marker lines and every line outside the region
unchanged. -/
theorem c1_splice_replaces_interior (snip : Snippet) (name : String)
    (pre mid post : List String) (s e : String) (fuel : Nat)
    (hpre : ∀ l ∈ pre, includesSub l writestart = false)
    (hmid : ∀ l ∈ mid, includesSub l writestart = false ∧ includesSub l writeend = false)
    (hsnip : ∀ l ∈ snip.lines, includesSub l writestart = false)
    (hpost : ∀ l ∈ post, includesSub l writestart = false)
    (hsS : includesSub s writestart = true) (hsE : includesSub s writeend = false)
    (hsid : extractID s = some snip.id)
    (heE : includesSub e writeend = true) (heS : includesSub e writestart = false)
    (hfuel : pre.length + mid.length + 2 + snip.lines.length + 1 + post.length ≤ fuel) :
    getSplicedFileF fuel snip ⟨name, pre ++ s :: (mid ++ e :: post)⟩ =
      Except.ok ⟨name, pre ++ s :: (snip.lines ++ e :: post)⟩ :=
  getSplicedFileF_ok fuel snip _ _
    (spliceSingleRegion snip pre mid post s e hpre hmid hsnip hpost hsS hsE hsid heE heS
      fuel hfuel)

/-- C1, witness: the example with a well-formed marker line. -/
theorem c1_witness :
    getSplicedFileF 20 snipJs
        ⟨"doc.md",
          ["x", "<!--START SNIPSTART my-id-1-->", "old1", "old2", "<!--END-->", "y"]⟩ =
      Except.ok
        ⟨"doc.md",
          ["x", "<!--START SNIPSTART my-id-1-->", "```js", "new", "```", "<!--END-->",
            "y"]⟩ := by
  have h := c1_splice_replaces_interior snipJs "doc.md" ["x"] ["old1", "old2"] ["y"]
    "<!--START SNIPSTART my-id-1-->" "<!--END-->" 20 (by decide) (by decide) (by decide)
    (by decide) (by decide) (by decide) (by decide) (by decide) (by decide) (by decide)
  exact h

/-- C2, counterexample: a file that satisfies the claim's well-formedness
condition verbatim (its only capture-start is followed by a capture-end
before any other capture-start) on which extraction fails instead of
returning the one-snippet list: a stray capture-end before the first
capture-start desynchronises the snippet counter. -/
theorem c2_counterexample :
    extractFileSnips ctxEx ["@@@END", "@@@START SNIPSTART my-id-1", "a", "@@@END"] =
        Except.error SyncErr.undefinedSnip ∧
      extractFileSnips ctxEx ["@@@END", "@@@START SNIPSTART my-id-1", "a", "@@@END"] ≠
        Except.ok
          [⟨"my-id", "go", "own", "repo", none, ⟨"f.go", "dir/sub", false⟩, ["a"]⟩] := by
  decide

/-- C2, amended: on a source file that is a sequence of flat well-formed
capture regions separated by gaps free of both capture markers (in
particular, no stray capture-end lines), extraction returns one snippet per
capture-start, in encounter order, each body being exactly the lines
strictly between its capture-start and capture-end, verbatim. -/
theorem c2_extraction_harvests_regions (ctx : ExtractCtx) (rs : List CaptureRegion)
    (post : List String)
    (hrs : ∀ r ∈ rs, GoodCaptureRegion r)
    (hpost : ∀ l ∈ post, includesSub l readstart = false ∧ includesSub l readend = false) :
    extractFileSnips ctx (buildCaptureFile rs post) =
      Except.ok (rs.map (regionSnippet ctx)) := by
  have h := extractLines_buildCapture ctx rs post hrs hpost []
  have h2 : extractFileSnips ctx (buildCaptureFile rs post) =
      Except.ok (([] : List Snippet) ++ rs.map (regionSnippet ctx)) :=
    extractFileSnips_ok ctx _ _ h
  simpa using h2

/-- C2, witness: two regions with gaps, harvested in order with exact
bodies. -/
theorem c2_witness :
    extractFileSnips ctxEx
        (buildCaptureFile
          [⟨[], "@@@START SNIPSTART my-id-1", "my-id", ["a", "b"], "@@@END"⟩,
            ⟨["gap"], "@@@START SNIPSTART other-id-2", "other-id", ["c"], "@@@END"⟩]
          ["tail"]) =
      Except.ok
        (([⟨[], "@@@START SNIPSTART my-id-1", "my-id", ["a", "b"], "@@@END"⟩,
            ⟨["gap"], "@@@START SNIPSTART other-id-2", "other-id", ["c"], "@@@END"⟩] :
              List CaptureRegion).map
          (regionSnippet ctxEx)) :=
  c2_extraction_harvests_regions ctxEx _ _ (by decide) (by decide)

/-- C7, counterexample: with two regions of the same id, a splice that
shrinks the file (snippet shorter than the first interior) resumes past the
second insertion-start line, which is skipped: the second region keeps its
old interior, contradicting the claim that every matching region is spliced
in one pass. -/
theorem c7_counterexample :
    getSplicedFileF 30 ⟨"my-id", "js", "o", "r", none, fpEx, ["n"]⟩
        ⟨"doc.md",
          ["<!--START SNIPSTART my-id-1-->", "a", "b", "c", "<!--END-->",
            "<!--START SNIPSTART my-id-1-->", "x", "<!--END-->"]⟩ =
        Except.ok
          ⟨"doc.md",
            ["<!--START SNIPSTART my-id-1-->", "n", "<!--END-->",
              "<!--START SNIPSTART my-id-1-->", "x", "<!--END-->"]⟩ ∧
      getSplicedFileF 30 ⟨"my-id", "js", "o", "r", none, fpEx, ["n"]⟩
          ⟨"doc.md",
            ["<!--START SNIPSTART my-id-1-->", "a", "b", "c", "<!--END-->",
              "<!--START SNIPSTART my-id-1-->", "x", "<!--END-->"]⟩ ≠
        Except.ok
          ⟨"doc.md",
            ["<!--START SNIPSTART my-id-1-->", "n", "<!--END-->",
              "<!--START SNIPSTART my-id-1-->", "n", "<!--END-->"]⟩ := by
  decide


/-- C8, counterexample: (i) the error thrown on a marker line whose id the
pattern cannot extract is one and the same `TypeError` value for two target
files that differ in name and in the position of the bad line — the failure
is not a labeled one identifying file and line number; (ii) the splice pass
does not propagate it universally either: a bad insertion-start line sitting
after a region whose replacement shrinks the file is jumped over by the
resumed index and silently skipped, the pass succeeding. -/
theorem c8_counterexample :
    getSplicedFileF 5 snipJs ⟨"doc1.md", ["<!--START id1-->"]⟩ =
        Except.error SyncErr.nullMatch ∧
      getSplicedFileF 7 snipJs ⟨"doc2.md", ["keep", "keep2", "<!--START noid-->"]⟩ =
        Except.error SyncErr.nullMatch ∧
      getSplicedFileF 30 ⟨"my-id", "js", "o", "r", none, fpEx, ["n"]⟩
          ⟨"doc.md",
            ["<!--START SNIPSTART my-id-1-->", "a", "b", "c", "<!--END-->",
              "<!--START noid-->", "x"]⟩ =
        Except.ok
          ⟨"doc.md",
            ["<!--START SNIPSTART my-id-1-->", "n", "<!--END-->", "<!--START noid-->",
              "x"]⟩ := by
  decide

/-- C8, amended: a capture-start line whose id the pattern cannot extract is
never silently skipped by the extraction scan: wherever it sits and whatever
the scan state, processing of the file fails with a `TypeError` at or before
that line.  In the splice pass the same holds for the first insertion-marker
line the scan reaches.  The failure carries no file or line label. -/
theorem c8_malformed_marker_fails :
    (∀ (ctx : ExtractCtx) (lines : List String) (bad : String),
      bad ∈ lines → includesSub bad readstart = true → extractID bad = none →
      ∃ e : SyncErr, extractFileSnips ctx lines = Except.error e) ∧
    (∀ (snip : Snippet) (front : List String) (bad : String) (rest : List String)
        (fuel : Nat),
      (∀ l ∈ front, includesSub l writestart = false) →
      includesSub bad writestart = true →
      extractID bad = none →
      front.length + 1 ≤ fuel →
      spliceLoop snip fuel (front ++ bad :: rest) 0 false 0 =
        Except.error SyncErr.nullMatch) := by
  constructor
  · intro ctx lines bad hmem hbad hid
    obtain ⟨e, he⟩ := extractLines_bad_errors ctx bad hbad hid lines ⟨false, 0, []⟩ hmem
    exact ⟨e, extractFileSnips_err ctx lines e he⟩
  · intro snip front bad rest fuel hfront hbad hid hfuel
    exact spliceLoop_nullMatch snip front bad rest hfront hbad hid fuel hfuel

/-- C8, witness: both halves at concrete bad marker lines, the extraction
one with the bad line in the middle of an open capture. -/
theorem c8_witness :
    (∃ e : SyncErr,
      extractFileSnips ctxEx ["@@@START SNIPSTART my-id-1", "a", "@@@START bogus"] =
        Except.error e) ∧
    spliceLoop snipJs 1 ["<!--START bogus-->"] 0 false 0 =
      Except.error SyncErr.nullMatch :=
  ⟨c8_malformed_marker_fails.1 ctxEx ["@@@START SNIPSTART my-id-1", "a", "@@@START bogus"]
      "@@@START bogus" (by decide) (by decide) (by decide),
    c8_malformed_marker_fails.2 snipJs [] "<!--START bogus-->" [] 1 (by simp) (by decide)
      (by decide) (by decide)⟩

/-- C5, counterexample: a snippet whose lines contain an insertion-end marker
defeats clear-after-splice: the spliced interior line survives the clear, so
the result differs from clearing the original file. -/
theorem c5_counterexample :
    spliceAllIter 20 [⟨"my-id", "js", "o", "r", none, fpEx, ["<!--END junk"]⟩] 1
        ["<!--START SNIPSTART my-id-1-->", "old", "<!--END-->"] =
        Except.ok ["<!--START SNIPSTART my-id-1-->", "<!--END junk", "<!--END-->"] ∧
      clearLoop false ["<!--START SNIPSTART my-id-1-->", "<!--END junk", "<!--END-->"] ≠
        clearLoop false ["<!--START SNIPSTART my-id-1-->", "old", "<!--END-->"] := by
  decide

/-- C5, amended: for every target file made of well-formed insertion regions
and every snippet list whose formatted lines are free of insertion markers,
clear after `n + 1` runs of the whole splice phase equals clear of the
original file: the marker lines and gaps survive and every region interior
is empty. -/
theorem c5_clear_after_splice (name : String) (K : Nat) (snips : List Snippet)
    (rs : List InsRegion) (post : List String) (fuel n : Nat)
    (hsnips : ∀ s ∈ snips,
      (∀ l ∈ s.lines, includesSub l writestart = false ∧ includesSub l writeend = false) ∧
      s.lines.length ≤ K)
    (hrs : ∀ r ∈ rs, GoodSpliceRegion r)
    (hk : ∀ r ∈ rs, r.body.length ≤ K)
    (hpost : ∀ l ∈ post, includesSub l writestart = false)
    (hfuel : costK K post rs ≤ fuel) :
    ∃ spliced : List String,
      spliceAllIter fuel snips (n + 1) (buildTarget rs post) = Except.ok spliced ∧
      getClearedFile ⟨name, spliced⟩ = getClearedFile ⟨name, buildTarget rs post⟩ ∧
      getClearedFile ⟨name, buildTarget rs post⟩ =
        ⟨name, buildTarget (rs.map fun x => { x with body := ([] : List String) }) post⟩ := by
  obtain ⟨rs2, h1, h2, h3, h4⟩ := spliceAllIter_skeleton K post hpost snips hsnips (n + 1)
    rs hrs hk fuel hfuel
  refine ⟨buildTarget rs2 post, h1, ?_, ?_⟩
  · simp only [getClearedFile]
    rw [clearLoop_buildTarget rs2 post (fun r hr => (h3 r hr).toGoodInsRegion) hpost,
      clearLoop_buildTarget rs post (fun r hr => (hrs r hr).toGoodInsRegion) hpost, h2]
  · simp only [getClearedFile]
    rw [clearLoop_buildTarget rs post (fun r hr => (hrs r hr).toGoodInsRegion) hpost]

/-- C5, witness: two snippets, two regions, two runs of the splice phase. -/
theorem c5_witness :
    ∃ spliced : List String,
      spliceAllIter 30 [snipJs, ⟨"other-id", "js", "o", "r", none, fpEx, ["o1", "o2"]⟩] 2
          (buildTarget
            [⟨["g1"], "<!--START SNIPSTART my-id-1-->", ["a", "b", "c"], "<!--END-->"⟩,
              ⟨["g2"], "<!--START SNIPSTART other-id-9-->", ["d"], "<!--END-->"⟩]
            ["t"]) = Except.ok spliced ∧
      getClearedFile ⟨"doc.md", spliced⟩ =
        getClearedFile ⟨"doc.md",
          buildTarget
            [⟨["g1"], "<!--START SNIPSTART my-id-1-->", ["a", "b", "c"], "<!--END-->"⟩,
              ⟨["g2"], "<!--START SNIPSTART other-id-9-->", ["d"], "<!--END-->"⟩]
            ["t"]⟩ ∧
      getClearedFile ⟨"doc.md",
          buildTarget
            [⟨["g1"], "<!--START SNIPSTART my-id-1-->", ["a", "b", "c"], "<!--END-->"⟩,
              ⟨["g2"], "<!--START SNIPSTART other-id-9-->", ["d"], "<!--END-->"⟩]
            ["t"]⟩ =
        ⟨"doc.md",
          buildTarget
            (([⟨["g1"], "<!--START SNIPSTART my-id-1-->", ["a", "b", "c"], "<!--END-->"⟩,
                ⟨["g2"], "<!--START SNIPSTART other-id-9-->", ["d"], "<!--END-->"⟩] :
                  List InsRegion).map fun x => { x with body := ([] : List String) })
            ["t"]⟩ :=
  c5_clear_after_splice "doc.md" 3
    [snipJs, ⟨"other-id", "js", "o", "r", none, fpEx, ["o1", "o2"]⟩]
    [⟨["g1"], "<!--START SNIPSTART my-id-1-->", ["a", "b", "c"], "<!--END-->"⟩,
      ⟨["g2"], "<!--START SNIPSTART other-id-9-->", ["d"], "<!--END-->"⟩]
    ["t"] 30 1 (by decide) (by decide) (by decide) (by decide) (by decide)

/-- C7, amended: a single top-to-bottom pass splices every well-formed region
whose id matches the snippet, however many there are, at the correct
recomputed positions, provided no replacement shrinks the file past the next
insertion-start line (`noSkip`); regions with other ids are untouched.  When
the condition fails, the resumed index lands beyond the next start line,
which is skipped, and that region is left unspliced. -/
theorem c7_one_pass_splices_matching (snip : Snippet) (name : String) (K : Nat)
    (rs : List InsRegion) (post : List String) (fuel : Nat)
    (hsnipS : ∀ l ∈ snip.lines, includesSub l writestart = false)
    (hsnipE : ∀ l ∈ snip.lines, includesSub l writeend = false)
    (hsnipK : snip.lines.length ≤ K)
    (hrs : ∀ r ∈ rs, GoodSpliceRegion r)
    (hk : ∀ r ∈ rs, r.body.length ≤ K)
    (hpost : ∀ l ∈ post, includesSub l writestart = false)
    (hns : noSkip snip rs = true)
    (hfuel : costK K post rs ≤ fuel) :
    getSplicedFileF fuel snip ⟨name, buildTarget rs post⟩ =
      Except.ok ⟨name, buildTarget (rs.map (spliceBody snip)) post⟩ := by
  have h := spliceLoop_splices_all snip K post hsnipS hsnipE hsnipK hpost rs hrs hk hns
    [] 0 0 fuel (by simp) (fun r₀ rs₀ h => Nat.zero_le _) (by simpa using hfuel)
  have h2 : spliceLoop snip fuel (buildTarget rs post) 0 false 0 =
      Except.ok (buildTarget (rs.map (spliceBody snip)) post) := by simpa using h
  exact getSplicedFileF_ok fuel snip ⟨name, buildTarget rs post⟩ _ h2

/-- C7, witness: three regions — matching, other id, matching — all handled
in one pass. -/
theorem c7_witness :
    getSplicedFileF 50 snipJs
        ⟨"doc.md",
          buildTarget
            [⟨[], "<!--START SNIPSTART my-id-1-->", ["a", "b", "c"], "<!--END-->"⟩,
              ⟨["g"], "<!--START SNIPSTART other-id-9-->", ["d"], "<!--END-->"⟩,
              ⟨[], "<!--START SNIPSTART my-id-1-->", ["e"], "<!--END-->"⟩]
            ["z"]⟩ =
      Except.ok
        ⟨"doc.md",
          buildTarget
            (([⟨[], "<!--START SNIPSTART my-id-1-->", ["a", "b", "c"], "<!--END-->"⟩,
                ⟨["g"], "<!--START SNIPSTART other-id-9-->", ["d"], "<!--END-->"⟩,
                ⟨[], "<!--START SNIPSTART my-id-1-->", ["e"], "<!--END-->"⟩] :
                  List InsRegion).map (spliceBody snipJs))
            ["z"]⟩ :=
  c7_one_pass_splices_matching snipJs "doc.md" 3
    [⟨[], "<!--START SNIPSTART my-id-1-->", ["a", "b", "c"], "<!--END-->"⟩,
      ⟨["g"], "<!--START SNIPSTART other-id-9-->", ["d"], "<!--END-->"⟩,
      ⟨[], "<!--START SNIPSTART my-id-1-->", ["e"], "<!--END-->"⟩]
    ["z"] 50 (by decide) (by decide) (by decide) (by decide) (by decide) (by decide)
    (by decide) (by decide)

/-- C9: a capture-start line met while a capture is already active emits a
new snippet record, but only one capture is ever active: every subsequent
line — the inner capture-start line itself included — is appended to the
earlier still-open snippet until a capture-end arrives, and the inner
snippet's body receives none of those lines. -/
theorem c9_nested_capture_starves_inner (ctx : ExtractCtx) (st1 st2 en : String)
    (idOuter idInner : String) (a b : List String)
    (ha : ∀ l ∈ a, includesSub l readstart = false ∧ includesSub l readend = false)
    (hb : ∀ l ∈ b, includesSub l readstart = false ∧ includesSub l readend = false)
    (h1S : includesSub st1 readstart = true) (h1E : includesSub st1 readend = false)
    (h1id : extractID st1 = some idOuter)
    (h2S : includesSub st2 readstart = true) (h2E : includesSub st2 readend = false)
    (h2id : extractID st2 = some idInner)
    (henE : includesSub en readend = true) (henS : includesSub en readstart = false) :
    extractFileSnips ctx (st1 :: (a ++ st2 :: (b ++ [en]))) =
      Except.ok
        [⟨jsTrim idOuter, ctx.ext, ctx.owner, ctx.repo, ctx.ref, ctx.item,
            a ++ st2 :: b⟩,
          ⟨jsTrim idInner, ctx.ext, ctx.owner, ctx.repo, ctx.ref, ctx.item, []⟩] := by
  have hn : extractLines ctx ⟨false, 0, []⟩ (st1 :: (a ++ st2 :: (b ++ [en]))) =
      Except.ok ⟨false, 1,
        [⟨jsTrim idOuter, ctx.ext, ctx.owner, ctx.repo, ctx.ref, ctx.item, a ++ st2 :: b⟩,
          ⟨jsTrim idInner, ctx.ext, ctx.owner, ctx.repo, ctx.ref, ctx.item, []⟩]⟩ := by
    rw [extractLines_step_ok ctx _ st1 _ _
      (extractLine_start ctx 0 [] st1 idOuter h1E h1S h1id)]
    have hb1 := extractLines_body_phase ctx a ha (st2 :: (b ++ [en])) []
      (freshSnippet ctx idOuter) []
    simp only [List.nil_append, List.length_nil] at hb1 ⊢
    rw [hb1]
    have hstep2 : extractLine ctx ⟨true, 0, [(freshSnippet ctx idOuter).pushLines a]⟩ st2 =
        Except.ok ⟨true, 0,
          [((freshSnippet ctx idOuter).pushLines a).pushLine st2,
            freshSnippet ctx idInner]⟩ := by
      have h := extractLine_start_while_capturing ctx []
        ((freshSnippet ctx idOuter).pushLines a) [] st2 idInner h2E h2S h2id
      simpa using h
    rw [extractLines_step_ok ctx _ st2 _ _ hstep2]
    have hb2 := extractLines_body_phase ctx b hb [en] []
      (((freshSnippet ctx idOuter).pushLines a).pushLine st2) [freshSnippet ctx idInner]
    simp only [List.nil_append, List.length_nil] at hb2
    rw [hb2]
    rw [extractLines_step_ok ctx _ en _ _ (extractLine_end ctx true 0 _ en henE henS)]
    simp [extractLines, freshSnippet, Snippet.pushLines, Snippet.pushLine]
  exact extractFileSnips_ok ctx _ _ hn

/-- C9, witness: the nested behaviour at a concrete file. -/
theorem c9_witness :
    extractFileSnips ctxEx
        ["@@@START SNIPSTART my-id-1", "alpha", "@@@START SNIPSTART other-id-2", "beta",
          "@@@END"] =
      Except.ok
        [⟨jsTrim "my-id", "go", "own", "repo", none, ⟨"f.go", "dir/sub", false⟩,
            ["alpha", "@@@START SNIPSTART other-id-2", "beta"]⟩,
          ⟨jsTrim "other-id", "go", "own", "repo", none, ⟨"f.go", "dir/sub", false⟩,
            []⟩] := by
  have h := c9_nested_capture_starves_inner ctxEx "@@@START SNIPSTART my-id-1"
    "@@@START SNIPSTART other-id-2" "@@@END" "my-id" "other-id" ["alpha"] ["beta"]
    (by decide) (by decide) (by decide) (by decide) (by decide) (by decide) (by decide)
    (by decide) (by decide) (by decide)
  exact h

end Snipsync
